import Mathlib

/-!
Verification development for the schema-resolution pipeline of an
OpenAPI code generator: the component pruner (pkg/codegen/prune.go),
the filter engine (pkg/codegen/filter.go) and the union synthesizer
(generateUnion).  The Go document model (pb33f/libopenapi high-level
v3 model) is embedded shallowly: ordered maps become association
lists, Go `nil` slices become `Option (List _)` where the code
distinguishes nil from empty, mutable ref-sets become threaded
`List String` values with insertion order preserved, and fallible
functions return `Except`.
-/

namespace Oapi

/-! ## Schema graph model

`Schema` mirrors `base.Schema` restricted to the fields the collector
(`collectSchemaRefs`) traverses: the low-level `$ref` string reported by
`GoLow().GetReference()` (empty when the node is not a reference),
`Type`, `Required`, `Properties`, `Items` (the `IsA` schema branch;
the boolean branch is `none`), `AdditionalProperties` (likewise),
and the composition keywords `AllOf`/`OneOf`/`AnyOf`/`Not`.
`SchemaProxy` mirrors `base.SchemaProxy`: either a `$ref` to a named
component or an inline schema; `Schema()` resolution of a `$ref` proxy
goes through an environment of named schemas (the document's component
table), so cyclic schema graphs are representable. -/

mutual

inductive Schema : Type where
  | mk (ref : String) (types : List String) (required : List String)
      (properties : List (String × SchemaProxy))
      (items : Option SchemaProxy)
      (addProps : Option SchemaProxy)
      (allOf : List SchemaProxy)
      (oneOf : List SchemaProxy)
      (anyOf : List SchemaProxy)
      (notS : Option SchemaProxy) : Schema

inductive SchemaProxy : Type where
  | ref (r : String) : SchemaProxy
  | inline (s : Schema) : SchemaProxy

end

def Schema.ref : Schema → String
  | .mk r _ _ _ _ _ _ _ _ _ => r

def Schema.types : Schema → List String
  | .mk _ t _ _ _ _ _ _ _ _ => t

def Schema.required : Schema → List String
  | .mk _ _ q _ _ _ _ _ _ _ => q

def Schema.properties : Schema → List (String × SchemaProxy)
  | .mk _ _ _ p _ _ _ _ _ _ => p

def Schema.items : Schema → Option SchemaProxy
  | .mk _ _ _ _ i _ _ _ _ _ => i

def Schema.addProps : Schema → Option SchemaProxy
  | .mk _ _ _ _ _ a _ _ _ _ => a

def Schema.allOf : Schema → List SchemaProxy
  | .mk _ _ _ _ _ _ a _ _ _ => a

def Schema.oneOf : Schema → List SchemaProxy
  | .mk _ _ _ _ _ _ _ o _ _ => o

def Schema.anyOf : Schema → List SchemaProxy
  | .mk _ _ _ _ _ _ _ _ a _ => a

def Schema.notS : Schema → Option SchemaProxy
  | .mk _ _ _ _ _ _ _ _ _ n => n

/-- The named-schema table used to resolve `$ref` proxies, keyed by full
reference strings such as `#/components/schemas/Foo`. -/
abbrev SchemaEnv := List (String × Schema)

def lookupSchema (env : SchemaEnv) (r : String) : Option Schema :=
  (env.find? (fun kv => kv.1 == r)).map (fun kv => kv.2)

/-- `GoLow().GetReference()` of a proxy: the `$ref` string, `""` when inline. -/
def SchemaProxy.getReference : SchemaProxy → String
  | .ref r => r
  | .inline _ => ""

/-- `SchemaProxy.Schema()`: resolve a `$ref` proxy through the component
table (`nil` when the target is unknown), an inline proxy is itself. -/
def SchemaProxy.resolve (env : SchemaEnv) : SchemaProxy → Option Schema
  | .ref r => lookupSchema env r
  | .inline s => some s

/-- `refSet[ref] = true` on a Go map, with insertion order kept. -/
def insertRef (r : String) (set : List String) : List String :=
  if r ∈ set then set else set ++ [r]

/-- Split at the first occurrence of `pat`: `some (before, after)` when the
pattern occurs, `none` otherwise (`strings.Contains` is `isSome`, and
`strings.Split(s, pat)[0]` is `before`).  Structural recursion so that the
kernel can evaluate it on literals. -/
def splitFirst (pat : List Char) : List Char → Option (List Char × List Char)
  | [] => if pat = [] then some ([], []) else none
  | c :: rest =>
    if pat.isPrefixOf (c :: rest) then some ([], (c :: rest).drop pat.length)
    else
      match splitFirst pat rest with
      | none => none
      | some pp => some (c :: pp.1, pp.2)

def containsSub (s pat : String) : Bool :=
  (splitFirst pat.toList s.toList).isSome

/-- prune.go `addParentSchemaRef`: if `ref` contains `/properties/`, also
record the owning schema's own reference (the part of the reference before
the first `/properties/`, i.e. `strings.Split(ref, "/properties/")[0]`),
unless already present. -/
def addParentSchemaRef (r : String) (set : List String) : List String :=
  match splitFirst "/properties/".toList r.toList with
  | none => set
  | some pp => insertRef (String.mk pp.1) set

/-! ## collectSchemaRefs (prune.go lines 235-316)

The Go function recurses over a possibly cyclic schema graph and relies
on the visited set for termination.  The embedding takes explicit fuel
(each level of Go call nesting consumes one unit); theorem
`c9_collect_schema_refs_terminates` shows a computable fuel bound past
which the result no longer changes, which is the termination claim.
The three traversal branches differ exactly as in the source: the
properties loop `continue`s on an already-recorded reference and adds
parent-schema refs, the items / additionalProperties branches `return`
early on an already-recorded reference, the composition loop
`continue`s and does not add parent refs. -/

/-- One property entry of the properties loop (prune.go lines 252-270). -/
def propStep (rec : Option Schema → List String → List String) (env : SchemaEnv)
    (p : SchemaProxy) (set : List String) : List String :=
  match p with
  | .inline sub => rec (some sub) set
  | .ref r =>
    if r = "" then rec (lookupSchema env r) set
    else if r ∈ set then set
    else rec (lookupSchema env r) (addParentSchemaRef r (insertRef r set))

/-- The items / additionalProperties branch (prune.go lines 272-295):
`none` means the early `return` that aborts the whole traversal. -/
def itemStep (rec : Option Schema → List String → List String) (env : SchemaEnv)
    (p : SchemaProxy) (set : List String) : Option (List String) :=
  match p with
  | .inline sub => some (rec (some sub) set)
  | .ref r =>
    if r = "" then some (rec (lookupSchema env r) set)
    else if r ∈ set then none
    else some (rec (lookupSchema env r) (insertRef r set))

/-- One element of the allOf/oneOf/anyOf/not loop (prune.go lines 297-312). -/
def groupStep (rec : Option Schema → List String → List String) (env : SchemaEnv)
    (p : SchemaProxy) (set : List String) : List String :=
  match p with
  | .inline sub => rec (some sub) set
  | .ref r =>
    if r = "" then rec (lookupSchema env r) set
    else if r ∈ set then set
    else rec (lookupSchema env r) (insertRef r set)

/-- The head of the traversal of one schema: record (and parent-expand) the
schema's own reference (prune.go lines 240-249), then walk the properties
loop (lines 251-270). -/
def propsPhase (rec : Option Schema → List String → List String) (env : SchemaEnv)
    (s : Schema) (set : List String) : List String :=
  let set0 := if s.ref = "" then set else addParentSchemaRef s.ref (insertRef s.ref set)
  s.properties.foldl (fun acc kv => propStep rec env kv.2 acc) set0

/-- The allOf/oneOf/anyOf/not loop (prune.go lines 297-312). -/
def groupsPhase (rec : Option Schema → List String → List String) (env : SchemaEnv)
    (s : Schema) (set : List String) : List String :=
  (s.allOf ++ s.oneOf ++ s.anyOf ++ s.notS.toList).foldl
    (fun acc p => groupStep rec env p acc) set

/-- The additionalProperties branch (prune.go lines 286-295) and what
follows it; its early `return` skips the composition loop. -/
def apPhase (rec : Option Schema → List String → List String) (env : SchemaEnv)
    (s : Schema) (set : List String) : List String :=
  match s.addProps with
  | none => groupsPhase rec env s set
  | some p =>
    match itemStep rec env p set with
    | none => set
    | some set2 => groupsPhase rec env s set2

/-- The array-items branch (prune.go lines 272-283) and what follows it;
its early `return` skips additionalProperties and the composition loop. -/
def collectBody (rec : Option Schema → List String → List String) (env : SchemaEnv)
    (s : Schema) (set : List String) : List String :=
  let set1 := propsPhase rec env s set
  match s.items with
  | none => apPhase rec env s set1
  | some p =>
    match itemStep rec env p set1 with
    | none => set1
    | some set2 => apPhase rec env s set2

/-- Fuel-indexed `collectSchemaRefs`.  Out of fuel returns the set as-is;
`collectBound` below always suffices. -/
def collectF (env : SchemaEnv) : Nat → Option Schema → List String → List String
  | 0, _, set => set
  | _ + 1, none, set => set
  | n + 1, some s, set =>
    if s.ref ≠ "" ∧ s.ref ∈ set then set
    else collectBody (collectF env n) env s set

mutual

/-- Structural size of a schema, used only for the fuel bound. -/
def schemaSize : Schema → Nat
  | .mk _ _ _ props items ap ao oo an ns =>
    1 + propsSize props + optSize items + optSize ap
      + proxiesSize ao + proxiesSize oo + proxiesSize an + optSize ns

def propsSize : List (String × SchemaProxy) → Nat
  | [] => 0
  | kv :: rest => 1 + proxySize kv.2 + propsSize rest

def optSize : Option SchemaProxy → Nat
  | none => 0
  | some p => 1 + proxySize p

def proxiesSize : List SchemaProxy → Nat
  | [] => 0
  | p :: rest => 1 + proxySize p + proxiesSize rest

def proxySize : SchemaProxy → Nat
  | .ref _ => 1
  | .inline s => 1 + schemaSize s

end

/-- Weight of the not-yet-visited part of the component table: each entry
whose key is absent from the set contributes its schema's size. -/
def envWeight (set : List String) : SchemaEnv → Nat
  | [] => 0
  | kv :: rest => (if kv.1 ∈ set then 0 else 1 + schemaSize kv.2) + envWeight set rest

def oWeight : Option Schema → Nat
  | none => 0
  | some s => schemaSize s

/-- A sufficient fuel bound for `collectF`: every recursive call either
descends into a strictly smaller inline schema or permanently marks an
unvisited environment key visited. -/
def collectBound (env : SchemaEnv) (o : Option Schema) (set : List String) : Nat :=
  envWeight set env + oWeight o + 1

/-- prune.go `collectSchemaRefs`, run with sufficient fuel. -/
def collectSchemaRefs (env : SchemaEnv) (o : Option Schema) (set : List String) :
    List String :=
  collectF env (collectBound env o set) o set

/-! ## Document model (libopenapi high-level v3, the fields the pipeline reads)

Go `nil` maps and empty maps behave identically in every embedded loop, so
ordered maps are plain association lists; `Paths`/`PathItems` keeps `Option`
because `findOperationRefs` returns the empty set when either is nil, which
is not the same as walking zero paths (the components walk is skipped too).
Each `ref` field is what `GoLow().GetReference()` reports on the object:
non-empty when the operation refers to a named component. -/

structure MediaType where
  schema : Option SchemaProxy

structure Header where
  ref : String
  schema : Option SchemaProxy
  content : List (String × MediaType)

structure Parameter where
  ref : String
  schema : Option SchemaProxy
  content : List (String × MediaType)

structure RequestBody where
  ref : String
  content : List (String × MediaType)

structure Response where
  ref : String
  content : List (String × MediaType)
  headers : List (String × Header)

structure Responses where
  defaultResponse : Option Response
  codes : List (String × Response)

structure Operation where
  tags : List String
  operationId : String
  parameters : List Parameter
  requestBody : Option RequestBody
  responses : Option Responses

structure PathItem where
  parameters : List Parameter
  get : Option Operation
  put : Option Operation
  post : Option Operation
  delete : Option Operation
  options : Option Operation
  head : Option Operation
  patch : Option Operation
  trace : Option Operation

structure Components where
  schemas : List (String × SchemaProxy)
  parameters : List (String × Parameter)
  requestBodies : List (String × RequestBody)
  responses : List (String × Response)
  headers : List (String × Header)
  securitySchemes : List String
  callbacks : List String
  examples : List String
  links : List String

structure Document where
  paths : Option (List (String × PathItem))
  components : Components
  webhooks : List String

/-- `PathItem.GetOperations()`: the present operations with their method
names (a fixed method order; no claim depends on the order). -/
def PathItem.getOperations (pi : PathItem) : List (String × Operation) :=
  [("get", pi.get), ("put", pi.put), ("post", pi.post), ("delete", pi.delete),
    ("options", pi.options), ("head", pi.head), ("patch", pi.patch),
    ("trace", pi.trace)].filterMap (fun kv => kv.2.map (fun op => (kv.1, op)))

/-- The resolution environment the document provides to the collector: its
named schemas under their full reference keys.  A component entry that is
itself a `$ref` proxy contributes no target of its own. -/
def schemaEnv (schemas : List (String × SchemaProxy)) : SchemaEnv :=
  schemas.filterMap (fun kv =>
    match kv.2 with
    | .inline s => some ("#/components/schemas/" ++ kv.1, s)
    | .ref _ => none)

/-! ## collectRefFromProxy / collectSchemaProxy (prune.go lines 326-405) -/

/-- prune.go `collectSchemaProxy`: the proxy's own `$ref`, then the refs of
its schema content. -/
def collectSchemaProxy (env : SchemaEnv) (p : Option SchemaProxy)
    (set : List String) : List String :=
  match p with
  | none => set
  | some proxy =>
    let set1 := if proxy.getReference = "" then set else insertRef proxy.getReference set
    collectSchemaRefs env (proxy.resolve env) set1

def collectContentRefs (env : SchemaEnv) (content : List (String × MediaType))
    (set : List String) : List String :=
  content.foldl (fun acc mt => collectSchemaProxy env mt.2.schema acc) set

def collectHeaderRefs (env : SchemaEnv) (h : Header) (set : List String) : List String :=
  let set1 := if h.ref = "" then set else insertRef h.ref set
  let set2 := collectSchemaProxy env h.schema set1
  collectContentRefs env h.content set2

def collectParameterRefs (env : SchemaEnv) (p : Parameter) (set : List String) :
    List String :=
  let set1 := if p.ref = "" then set else insertRef p.ref set
  let set2 := collectSchemaProxy env p.schema set1
  collectContentRefs env p.content set2

def collectRequestBodyRefs (env : SchemaEnv) (b : RequestBody) (set : List String) :
    List String :=
  let set1 := if b.ref = "" then set else insertRef b.ref set
  collectContentRefs env b.content set1

def collectResponseRefs (env : SchemaEnv) (r : Response) (set : List String) :
    List String :=
  let set1 := if r.ref = "" then set else insertRef r.ref set
  let set2 := collectContentRefs env r.content set1
  r.headers.foldl (fun acc hkv => collectHeaderRefs env hkv.2 acc) set2

/-- Lexicographic byte order, structurally recursive so the kernel can
evaluate it. -/
def charListLe : List Char → List Char → Bool
  | [], _ => true
  | _ :: _, [] => false
  | a :: as, b :: bs =>
    if a.toNat < b.toNat then true
    else if b.toNat < a.toNat then false
    else charListLe as bs

def strLe (a b : String) : Bool :=
  charListLe a.toList b.toList

/-- `slices.Sort` on the collected refs (insertion sort; only the ordering,
not the algorithm, is observable). -/
def insertSorted (x : String) : List String → List String
  | [] => [x]
  | y :: rest => if strLe x y then x :: y :: rest else y :: insertSorted x rest

def sortRefs (l : List String) : List String :=
  l.foldr insertSorted []

/-- prune.go `findOperationRefs` (lines 132-217): walk every surviving
operation's path-level parameters, request body, parameters and responses,
then every component of every kind, recording every reference found. -/
def findOperationRefs (model : Document) : List String :=
  match model.paths with
  | none => []
  | some pathItems =>
    let env := schemaEnv model.components.schemas
    let set1 := pathItems.foldl (fun acc pkv =>
      let acc1 := pkv.2.parameters.foldl (fun a p => collectParameterRefs env p a) acc
      pkv.2.getOperations.foldl (fun a okv =>
        let a1 := match okv.2.requestBody with
          | none => a
          | some b => collectRequestBodyRefs env b a
        let a2 := okv.2.parameters.foldl (fun x p => collectParameterRefs env p x) a1
        match okv.2.responses with
        | none => a2
        | some rs =>
          let a3 := match rs.defaultResponse with
            | none => a2
            | some r => collectResponseRefs env r a2
          rs.codes.foldl (fun x rkv => collectResponseRefs env rkv.2 x) a3) acc1) ([] : List String)
    let c := model.components
    let set2 := c.parameters.foldl (fun a kv => collectParameterRefs env kv.2 a) set1
    let set3 := c.requestBodies.foldl (fun a kv => collectRequestBodyRefs env kv.2 a) set2
    let set4 := c.responses.foldl (fun a kv => collectResponseRefs env kv.2 a) set3
    let set5 := c.headers.foldl (fun a kv => collectHeaderRefs env kv.2 a) set4
    let set6 := c.schemas.foldl (fun a kv =>
      let a1 := if kv.2.getReference = "" then a else insertRef kv.2.getReference a
      collectSchemaRefs env (kv.2.resolve env) a1) set5
    sortRefs set6

/-! ## removeOrphanedComponents and the pruning loop (prune.go lines 25-130) -/

/-- One component table of `removeOrphanedComponents`: delete every key whose
reference is absent from `refs`, counting deletions. -/
def pruneTable {α : Type} (kind : String) (refs : List String) :
    List (String × α) → List (String × α) × Nat
  | [] => ([], 0)
  | kv :: rest =>
    let acc := pruneTable kind refs rest
    if ("#/components/" ++ kind ++ "/" ++ kv.1) ∈ refs then (kv :: acc.1, acc.2)
    else (acc.1, acc.2 + 1)

def removeOrphanedComponents (model : Document) (refs : List String) :
    Document × Nat :=
  let sc := pruneTable "schemas" refs model.components.schemas
  let pa := pruneTable "parameters" refs model.components.parameters
  let rb := pruneTable "requestBodies" refs model.components.requestBodies
  let rs := pruneTable "responses" refs model.components.responses
  let hd := pruneTable "headers" refs model.components.headers
  ({ model with components := { model.components with
      schemas := sc.1, parameters := pa.1, requestBodies := rb.1,
      responses := rs.1, headers := hd.1 } },
    sc.2 + pa.2 + rb.2 + rs.2 + hd.2)

/-- pruneSchema lines 33-41: unconditionally drop webhooks, security
schemes, callbacks, component examples and links. -/
def sanitizeModel (model : Document) : Document :=
  { model with
    components := { model.components with
      securitySchemes := ([]), callbacks := ([]), examples := ([]), links := ([]) },
    webhooks := [] }

def maxIterations : Nat := 1000

/-- `fmt.Errorf("pruning exceeded maximum iterations (%d), possible
infinite loop", maxIterations)` with `maxIterations = 1000` interpolated. -/
def capMessage : String :=
  "pruning exceeded maximum iterations (1000), possible infinite loop"

/-- The pruning loop, with `remaining = maxIterations - iteration + 1`:
the Go loop errors when `iteration > maxIterations` before doing any work,
i.e. it performs at most `maxIterations` collect-and-remove rounds. -/
def pruneLoopGo : Nat → Document → Except String Document
  | 0, _ => .error capMessage
  | r + 1, model =>
    let refs := findOperationRefs model
    let step := removeOrphanedComponents model refs
    if step.2 < 1 then .ok step.1 else pruneLoopGo r step.1

/-- prune.go `pruneSchema` (the model-build step of the upstream parser is
out of scope; its failure path precedes this pipeline). -/
def pruneSchema (model : Document) : Except String Document :=
  pruneLoopGo maxIterations (sanitizeModel model)

/-- One collect-and-remove round, used to phrase "the k-th iteration". -/
def pruneStep (model : Document) : Document :=
  (removeOrphanedComponents model (findOperationRefs model)).1

def pruneCount (model : Document) : Nat :=
  (removeOrphanedComponents model (findOperationRefs model)).2

/-! ## Filter engine (filter.go)

`FilterParamsConfig` keeps Go's nil/empty slice distinction with
`Option (List String)`: `filterOperations` tests `!= nil` on Paths and
OperationIDs but `len > 0` on Tags, and the two differ on a non-nil
empty slice.  The per-schema property map is an association list (the
code only reads it through `len` and key lookup, where a nil map and an
empty map agree). -/

structure FilterParamsConfig where
  Paths : Option (List String)
  Tags : Option (List String)
  OperationIDs : Option (List String)
  SchemaProperties : List (String × List String)

structure FilterConfig where
  Include : FilterParamsConfig
  Exclude : FilterParamsConfig

/-- Modelled from the spec: the `isEmpty` receiver on the config halves is
declared outside the sampled sources.  Per the spec, emptiness is evaluated
per axis (by length), not by a single nil check on the whole config. -/
def FilterParamsConfig.isEmpty (c : FilterParamsConfig) : Bool :=
  (c.Paths.getD []).isEmpty && (c.Tags.getD []).isEmpty
    && (c.OperationIDs.getD []).isEmpty && c.SchemaProperties.isEmpty

/-- The operation-level removal decision of `filterOperations`
(filter.go lines 44-75): the sequential `remove` flag is a disjunction. -/
def operationRemoved (cfg : FilterConfig) (op : Operation) : Bool :=
  (op.tags.any (fun t => (cfg.Exclude.Tags.getD []).contains t))
    || (((cfg.Include.Tags.getD []).length > 0)
        && !(op.tags.any (fun t => (cfg.Include.Tags.getD []).contains t)))
    || (cfg.Exclude.OperationIDs.isSome
        && (cfg.Exclude.OperationIDs.getD []).contains op.operationId)
    || (cfg.Include.OperationIDs.isSome
        && !((cfg.Include.OperationIDs.getD []).contains op.operationId))

def keepOperation (cfg : FilterConfig) (o : Option Operation) : Option Operation :=
  match o with
  | none => none
  | some op => if operationRemoved cfg op then none else some op

/-- The method-nulling switch of filter.go lines 77-96, one method at a
time (the `GetOperations` snapshot is taken before any deletion, and each
method's decision is independent). -/
def filterPathItemOps (cfg : FilterConfig) (pi : PathItem) : PathItem :=
  { pi with
    get := keepOperation cfg pi.get,
    put := keepOperation cfg pi.put,
    post := keepOperation cfg pi.post,
    delete := keepOperation cfg pi.delete,
    options := keepOperation cfg pi.options,
    head := keepOperation cfg pi.head,
    patch := keepOperation cfg pi.patch,
    trace := keepOperation cfg pi.trace }

/-- filter.go `filterOperations` (lines 32-99).  A whole path is dropped
when Include.Paths is non-nil and does not contain it, or Exclude.Paths is
non-nil and contains it; otherwise its operations are filtered per method. -/
def filterOperations (model : Document) (cfg : FilterConfig) : Document :=
  { model with paths := model.paths.map (fun items => items.filterMap (fun pkv =>
      if cfg.Include.Paths.isSome && !((cfg.Include.Paths.getD []).contains pkv.1) then
        none
      else if cfg.Exclude.Paths.isSome && ((cfg.Exclude.Paths.getD []).contains pkv.1) then
        none
      else some (pkv.1, filterPathItemOps cfg pkv.2))) }

def Schema.withProperties (s : Schema) (props : List (String × SchemaProxy)) : Schema :=
  match s with
  | .mk r t q _ i a ao oo an ns => .mk r t q props i a ao oo an ns

/-- `schema.Properties.Delete(propName)`. -/
def deleteProperty (s : Schema) (name : String) : Schema :=
  s.withProperties (s.properties.filter (fun kv => kv.1 != name))

/-- The per-schema deletion loop of `filterComponentSchemaProperties`
(filter.go lines 130-148): keys are snapshotted first; a required property
is skipped before either mode can delete it. -/
def filterSchemaProps (s : Schema) (filteredProps : List String)
    (includeMode excludeMode : Bool) : Schema :=
  let copiedKeys := s.properties.map (fun kv => kv.1)
  copiedKeys.foldl (fun acc propName =>
    if propName ∈ s.required then acc
    else
      let acc1 := if includeMode && !(filteredProps.contains propName) then
          deleteProperty acc propName
        else acc
      if excludeMode && filteredProps.contains propName then
        deleteProperty acc1 propName
      else acc1) s

def lookupProps (m : List (String × List String)) (k : String) : Option (List String) :=
  (m.find? (fun kv => kv.1 == k)).map (fun kv => kv.2)

/-- filter.go `filterComponentSchemaProperties` (lines 101-150).  A
component entry that is itself a `$ref` proxy is left as-is here: the Go
code would resolve and mutate the referenced schema in place, an aliasing
effect outside this immutable embedding and outside every claim. -/
def filterComponentSchemaProperties (model : Document) (cfg : FilterConfig) :
    Document :=
  let includeMode := cfg.Include.SchemaProperties.length > 0
  let excludeMode := cfg.Exclude.SchemaProperties.length > 0
  if !includeMode && !excludeMode then model
  else
    let propsFilter := if includeMode then cfg.Include.SchemaProperties
      else cfg.Exclude.SchemaProperties
    { model with components := { model.components with
        schemas := model.components.schemas.map (fun kv =>
          match lookupProps propsFilter kv.1 with
          | none => kv
          | some filteredProps =>
            match kv.2 with
            | .ref r => (kv.1, .ref r)
            | .inline s =>
              (kv.1, .inline (filterSchemaProps s filteredProps includeMode excludeMode))) } }

/-- filter.go `filterOutDocument` (lines 11-30).  `BuildV3Model` and
`RenderAndReload` belong to the upstream parser collaborator; the reload of
the mutated model is its identity here and its failure path is out of
scope. -/
def filterOutDocument (model : Document) (cfg : FilterConfig) :
    Except String Document :=
  if cfg.Include.isEmpty && cfg.Exclude.isEmpty then .ok model
  else
    let m1 := filterOperations model cfg
    let m2 := filterComponentSchemaProperties m1 cfg
    .ok m2

/-! ## Union synthesizer (`generateUnion`)

`GenerateGoSchema`, the per-member type generator `generateUnion` calls, is
declared outside the sampled sources; it is passed in as the function
argument `genGo`, so every theorem quantifies over (or instantiates) its
behaviour.  `options.AddType` appends to a registry
shared through the options; the embedding threads that registry and
returns it beside the result schema.  The output `Mapping` is a Go map:
assignment overwrites an existing key and `len` counts distinct keys. -/

structure DiscriminatorSpec where
  propertyName : String
  mapping : List (String × String)

structure DiscriminatorOut where
  property : String
  mapping : List (String × String)

mutual

inductive GoSchema : Type where
  | mk (goType : String) (nullable : Option Bool)
      (additionalTypes : List TypeDefinition)
      (unionElements : List String)
      (discriminator : Option DiscriminatorOut) : GoSchema

inductive TypeDefinition : Type where
  | mk (schema : GoSchema) (name : String) (specLocation : String)
      (jsonName : String) (needsMarshaler : Bool) : TypeDefinition

end

def GoSchema.goType : GoSchema → String
  | .mk g _ _ _ _ => g

def GoSchema.nullable : GoSchema → Option Bool
  | .mk _ n _ _ _ => n

def GoSchema.additionalTypes : GoSchema → List TypeDefinition
  | .mk _ _ a _ _ => a

def GoSchema.unionElements : GoSchema → List String
  | .mk _ _ _ u _ => u

def GoSchema.discriminator : GoSchema → Option DiscriminatorOut
  | .mk _ _ _ _ d => d

def GoSchema.setGoType : GoSchema → String → GoSchema
  | .mk _ n a u d, g => .mk g n a u d

/-- `schema.Constraints.Nullable = ptr(true)`: the one constraint field the
synthesizer touches. -/
def GoSchema.setNullable : GoSchema → Option Bool → GoSchema
  | .mk g _ a u d, n => .mk g n a u d

/-- Modelled from the spec: `TypeDecl` renders a schema's type declaration;
its source is outside the sample and no claim depends on its value. -/
def GoSchema.TypeDecl (s : GoSchema) : String :=
  s.goType

/-- Modelled from the spec: `needsMarshaler` only populates a data field of
the emitted TypeDefinition; no claim depends on its value. -/
def needsMarshaler (_ : GoSchema) : Bool :=
  false

def SpecLocationUnion : String := "union"

/-- Modelled from the spec: the implicit discriminator key is derived from
the member's own reference's final path segment (the text after the last
`/`, the whole reference when it has no `/`). -/
def refPathToObjName (r : String) : String :=
  String.mk (r.toList.foldl (fun acc c => if c = '/' then [] else acc ++ [c]) [])

def UppercaseFirstCharacter (s : String) : String :=
  match s.toList with
  | [] => ""
  | c :: rest => String.mk (c.toUpper :: rest)

/-- Modelled from the spec: an inline member's fresh type name is derived
deterministically from its positional path. -/
def pathToTypeName (path : List String) : String :=
  String.join (path.map UppercaseFirstCharacter)

def primitiveGoTypes : List String :=
  ["string", "int", "int8", "int16", "int32", "int64", "uint", "uint8",
    "uint16", "uint32", "uint64", "float", "float32", "float64", "bool"]

structure ParseOptions where
  path : List String
  refValue : String

def ParseOptions.WithReference (o : ParseOptions) (r : String) : ParseOptions :=
  { o with refValue := r }

def ParseOptions.WithPath (o : ParseOptions) (p : List String) : ParseOptions :=
  { o with path := p }

inductive UnionErr : Type where
  | ambiguous
  | notAllMapped
  | genError (msg : String)

def ErrAmbiguousDiscriminatorMapping : UnionErr := .ambiguous

def ErrDiscriminatorNotAllMapped : UnionErr := .notAllMapped

/-- Go map assignment `m[k] = v`: overwrite the key or append it. -/
def mapAssign (m : List (String × String)) (k v : String) :
    List (String × String) :=
  if (m.find? (fun kv => kv.1 == k)).isSome then
    m.map (fun kv => if kv.1 == k then (k, v) else kv)
  else m ++ [(k, v)]

/-- The null-member filter of generateUnion (lines 88-105): drop members
whose resolved type list is exactly `["null"]`, remembering that a null was
seen; members whose schema cannot be resolved are skipped silently. -/
def nullFilter (env : SchemaEnv) (elements : List SchemaProxy) :
    List SchemaProxy × Bool :=
  elements.foldl (fun acc element =>
    match element.resolve env with
    | none => acc
    | some sch =>
      if sch.types = ["null"] then (acc.1, true) else (acc.1 ++ [element], acc.2))
    (([]), false)

/-- The state the member loop of generateUnion threads: the out-schema's
AdditionalTypes and UnionElements, the discriminator mapping under
construction, and the types registered through `options.AddType`. -/
structure UnionState where
  additionalTypes : List TypeDefinition
  unionElements : List String
  mapping : List (String × String)
  registry : List TypeDefinition

def emptyUnionState : UnionState :=
  { additionalTypes := ([]), unionElements := ([]), mapping := ([]), registry := [] }

/-- One iteration of the member loop of generateUnion (lines 142-192). -/
def unionLoopStep (genGo : SchemaProxy → ParseOptions → Except UnionErr GoSchema)
    (disc : Option DiscriminatorSpec) (options : ParseOptions)
    (st : UnionState) (i : Nat) (element : SchemaProxy) :
    Except UnionErr UnionState :=
  let elementPath := options.path ++ [toString i]
  let ref := element.getReference
  let opts := (options.WithReference ref).WithPath elementPath
  match genGo element opts with
  | .error e => .error e
  | .ok elementSchema =>
    let renamed :=
      if ref = "" ∧ ¬ primitiveGoTypes.contains elementSchema.goType then
        let elementName := pathToTypeName elementPath
        let st1 :=
          if elementSchema.TypeDecl ≠ elementName then
            let td := TypeDefinition.mk elementSchema elementName SpecLocationUnion
              "-" (needsMarshaler elementSchema)
            { st with registry := st.registry ++ [td],
                      additionalTypes := st.additionalTypes ++ [td] }
          else st
        ((elementSchema.setGoType elementName),
          { st1 with additionalTypes := st1.additionalTypes ++ elementSchema.additionalTypes })
      else (elementSchema, st)
    let es := renamed.1
    let st2 := renamed.2
    match disc with
    | none => .ok { st2 with unionElements := st2.unionElements ++ [es.goType] }
    | some d =>
      if d.mapping.length ≠ 0 ∧ element.getReference = "" then
        .error ErrAmbiguousDiscriminatorMapping
      else
        let explicitKey := d.mapping.find? (fun kv => kv.2 == element.getReference)
        let st3 :=
          match explicitKey with
          | some kv => { st2 with mapping := mapAssign st2.mapping kv.1 es.goType }
          | none =>
            { st2 with mapping :=
                mapAssign st2.mapping (refPathToObjName element.getReference) es.goType }
        .ok { st3 with unionElements := st3.unionElements ++ [es.goType] }

def unionLoop (genGo : SchemaProxy → ParseOptions → Except UnionErr GoSchema)
    (disc : Option DiscriminatorSpec) (options : ParseOptions)
    (elements : List SchemaProxy) : Except UnionErr UnionState :=
  elements.enum.foldlM (fun st ie => unionLoopStep genGo disc options st ie.1 ie.2)
    emptyUnionState

/-- `deduplicateUnionElements` (lines 205-217): drop duplicates, keeping
first-occurrence order. -/
def deduplicateUnionElements (elements : List String) : List String :=
  elements.foldl (fun acc e => if e ∈ acc then acc else acc ++ [e]) []

/-- `generateUnion` (lines 70-202).  Result: the synthesized schema and the
list of TypeDefinitions registered through `options.AddType`, or the error
the Go function returns beside a zero GoSchema. -/
def generateUnion (genGo : SchemaProxy → ParseOptions → Except UnionErr GoSchema)
    (env : SchemaEnv) (elements : List SchemaProxy)
    (discriminator : Option DiscriminatorSpec) (options : ParseOptions) :
    Except UnionErr (GoSchema × List TypeDefinition) :=
  match elements with
  | [e] =>
    (genGo e (options.WithReference e.getReference)).map (fun s => (s, []))
  | _ =>
    let nf := nullFilter env elements
    match nf.1 with
    | [e] =>
      match genGo e (options.WithReference e.getReference) with
      | .error err => .error err
      | .ok s =>
        if nf.2 then .ok (s.setNullable (some true), []) else .ok (s, [])
    | nonNull =>
      match unionLoop genGo discriminator options nonNull with
      | .error err => .error err
      | .ok st =>
        let unionElems := deduplicateUnionElements st.unionElements
        if discriminator.isSome ∧ st.mapping.length ≠ nonNull.length then
          .error ErrDiscriminatorNotAllMapped
        else
          .ok (GoSchema.mk "" none st.additionalTypes unionElems
              (discriminator.map (fun d => DiscriminatorOut.mk d.propertyName st.mapping)),
            st.registry)

/-! ## Helper lemmas -/

theorem withProperties_properties (s : Schema) (props : List (String × SchemaProxy)) :
    (s.withProperties props).properties = props := by
  cases s
  rfl

theorem withProperties_required (s : Schema) (props : List (String × SchemaProxy)) :
    (s.withProperties props).required = s.required := by
  cases s
  rfl

theorem foldl_preserves {α β : Type} (P : α → Prop) (f : α → β → α)
    (hf : ∀ a b, P a → P (f a b)) :
    ∀ (l : List β) (a : α), P a → P (l.foldl f a) := by
  intro l
  induction l with
  | nil => intro a h; exact h
  | cons x xs ih => intro a h; exact ih _ (hf _ _ h)

theorem mem_keys_deleteProperty (acc : Schema) (q propName : String)
    (hne : q ≠ propName) (h : q ∈ acc.properties.map Prod.fst) :
    q ∈ (deleteProperty acc propName).properties.map Prod.fst := by
  rcases List.mem_map.mp h with ⟨kv, hkv, hq⟩
  refine List.mem_map.mpr ⟨kv, ?_, hq⟩
  rw [deleteProperty, withProperties_properties]
  refine List.mem_filter.mpr ⟨hkv, ?_⟩
  subst hq
  simpa using hne

theorem filterSchemaProps_keeps_required (s : Schema) (fp : List String)
    (im em : Bool) (p : String) (hreq : p ∈ s.required)
    (hkey : p ∈ s.properties.map Prod.fst) :
    p ∈ (filterSchemaProps s fp im em).properties.map Prod.fst := by
  rw [filterSchemaProps]
  refine foldl_preserves (fun acc => p ∈ acc.properties.map Prod.fst) _ ?_ _ s hkey
  intro acc propName h
  by_cases hmem : propName ∈ s.required
  · simpa [hmem] using h
  · have hne : p ≠ propName := fun he => hmem (he ▸ hreq)
    simp only [if_neg hmem]
    split
    · split
      · exact mem_keys_deleteProperty _ _ _ hne (mem_keys_deleteProperty _ _ _ hne h)
      · exact mem_keys_deleteProperty _ _ _ hne h
    · split
      · exact mem_keys_deleteProperty _ _ _ hne h
      · exact h

/-! ## C3 -/

/-- C3: for every named schema and every schema-property filter
configuration (include mode or exclude mode), a property listed in the
schema's required list is never deleted by property filtering: it is still
a key of the schema's properties after `filterComponentSchemaProperties`. -/
theorem c3_required_property_survives_filtering
    (model : Document) (cfg : FilterConfig) (name p : String) (s : Schema)
    (hmem : (name, SchemaProxy.inline s) ∈ model.components.schemas)
    (hreq : p ∈ s.required)
    (hkey : p ∈ s.properties.map Prod.fst) :
    ∃ s', (name, SchemaProxy.inline s') ∈
        (filterComponentSchemaProperties model cfg).components.schemas ∧
      p ∈ s'.properties.map Prod.fst := by
  rw [filterComponentSchemaProperties]
  split
  · exact ⟨s, hmem, hkey⟩
  · simp only
    cases hlk : lookupProps
        (if cfg.Include.SchemaProperties.length > 0 then cfg.Include.SchemaProperties
          else cfg.Exclude.SchemaProperties) name with
    | none =>
      refine ⟨s, ?_, hkey⟩
      have := List.mem_map_of_mem (f := fun kv =>
        match lookupProps (if cfg.Include.SchemaProperties.length > 0 then
            cfg.Include.SchemaProperties else cfg.Exclude.SchemaProperties) kv.1 with
        | none => kv
        | some filteredProps =>
          match kv.2 with
          | .ref r => (kv.1, SchemaProxy.ref r)
          | .inline s =>
            (kv.1, SchemaProxy.inline (filterSchemaProps s filteredProps
              (cfg.Include.SchemaProperties.length > 0)
              (cfg.Exclude.SchemaProperties.length > 0)))) hmem
      simpa [hlk] using this
    | some fp =>
      refine ⟨filterSchemaProps s fp (cfg.Include.SchemaProperties.length > 0)
        (cfg.Exclude.SchemaProperties.length > 0), ?_,
        filterSchemaProps_keeps_required s fp _ _ p hreq hkey⟩
      have := List.mem_map_of_mem (f := fun kv =>
        match lookupProps (if cfg.Include.SchemaProperties.length > 0 then
            cfg.Include.SchemaProperties else cfg.Exclude.SchemaProperties) kv.1 with
        | none => kv
        | some filteredProps =>
          match kv.2 with
          | .ref r => (kv.1, SchemaProxy.ref r)
          | .inline s =>
            (kv.1, SchemaProxy.inline (filterSchemaProps s filteredProps
              (cfg.Include.SchemaProperties.length > 0)
              (cfg.Exclude.SchemaProperties.length > 0)))) hmem
      simpa [hlk] using this

def c3Pet : Schema :=
  .mk "" ["object"] ["x"] [("x", .ref ""), ("y", .ref "")] none none [] [] [] none

def c3Model : Document :=
  ⟨none, ⟨[("Pet", .inline c3Pet)], [], [], [], [], [], [], [], []⟩, []⟩

def c3Cfg : FilterConfig :=
  ⟨⟨none, none, none, []⟩, ⟨none, none, none, [("Pet", ["x", "y"])]⟩⟩

/-- C3 witness: a schema with `required = ["x"]` filtered with
`Exclude.SchemaProperties["Pet"] = ["x", "y"]` keeps property `x`. -/
theorem c3_required_property_survives_filtering_witness :
    ∃ s', ("Pet", SchemaProxy.inline s') ∈
        (filterComponentSchemaProperties c3Model c3Cfg).components.schemas ∧
      "x" ∈ s'.properties.map Prod.fst :=
  c3_required_property_survives_filtering c3Model c3Cfg "Pet" "x" c3Pet
    (by simp [c3Model]) (by decide) (by decide)

/-! ## C6 -/

/-- C6: a union of two or more members of which exactly one survives
null-removal (the rest being exactly the null type, so a null was seen) is
synthesized directly from that member and marked nullable; `generateUnion`
registers no type through `options.AddType` and adds nothing to the member's
own schema beyond the nullable mark. -/
theorem c6_union_optional_collapse
    (genGo : SchemaProxy → ParseOptions → Except UnionErr GoSchema)
    (env : SchemaEnv) (elements : List SchemaProxy)
    (disc : Option DiscriminatorSpec) (options : ParseOptions)
    (e : SchemaProxy) (s : GoSchema)
    (hlen : 2 ≤ elements.length)
    (hnf : nullFilter env elements = ([e], true))
    (hgen : genGo e (options.WithReference e.getReference) = .ok s) :
    generateUnion genGo env elements disc options =
      .ok (s.setNullable (some true), []) := by
  match elements, hlen with
  | a :: b :: rest, _ =>
    rw [generateUnion]
    simp only [hnf, hgen]
    all_goals simp

def c6Gen : SchemaProxy → ParseOptions → Except UnionErr GoSchema :=
  fun _ _ => .ok (GoSchema.mk "string" none [] [] none)

def c6Elements : List SchemaProxy :=
  [.inline (.mk "" ["string"] [] [] none none [] [] [] none),
    .inline (.mk "" ["null"] [] [] none none [] [] [] none)]

/-- C6 witness: `anyOf = [string, null]` collapses to an optional string
with zero additional TypeDefinitions. -/
theorem c6_union_optional_collapse_witness :
    generateUnion c6Gen [] c6Elements none ⟨[], ""⟩ =
      .ok ((GoSchema.mk "string" none [] [] none).setNullable (some true), []) :=
  c6_union_optional_collapse c6Gen [] c6Elements none ⟨[], ""⟩
    (.inline (.mk "" ["string"] [] [] none none [] [] [] none))
    (GoSchema.mk "string" none [] [] none)
    (by decide) (by rfl) (by rfl)

/-! ## C5 -/

/-- C5: with a declared discriminator and two or more surviving non-null
members, once the member loop has processed all members, `generateUnion`
fails with the incomplete-mapping error exactly when the mapping's entry
count differs from the member count (and the error carries no union), and
succeeds when the mapping covers every member. -/
theorem c5_discriminator_mapping_completeness
    (genGo : SchemaProxy → ParseOptions → Except UnionErr GoSchema)
    (env : SchemaEnv) (elements : List SchemaProxy) (d : DiscriminatorSpec)
    (options : ParseOptions) (st : UnionState)
    (n1 n2 : SchemaProxy) (nrest : List SchemaProxy)
    (hlen : 2 ≤ elements.length)
    (hnn : (nullFilter env elements).1 = n1 :: n2 :: nrest)
    (hloop : unionLoop genGo (some d) options (n1 :: n2 :: nrest) = .ok st) :
    (st.mapping.length ≠ (n1 :: n2 :: nrest).length →
      generateUnion genGo env elements (some d) options =
        .error ErrDiscriminatorNotAllMapped)
    ∧ (st.mapping.length = (n1 :: n2 :: nrest).length →
      generateUnion genGo env elements (some d) options =
        .ok (GoSchema.mk "" none st.additionalTypes
            (deduplicateUnionElements st.unionElements)
            (some (DiscriminatorOut.mk d.propertyName st.mapping)),
          st.registry)) := by
  match elements, hlen with
  | a :: b :: rest, _ =>
    rw [generateUnion]
    case x_1 => simp
    simp only [hnn, hloop]
    constructor
    · intro h
      rw [if_pos ⟨rfl, h⟩]
    · intro h
      rw [if_neg (fun hc => hc.2 h)]
      simp

def c5Obj : Schema := .mk "" ["object"] [] [] none none [] [] [] none

def c5Env : SchemaEnv := [("#/c/A", c5Obj), ("#/c/B", c5Obj), ("#/d/A", c5Obj)]

def c5Gen : SchemaProxy → ParseOptions → Except UnionErr GoSchema :=
  fun sp _ => .ok (GoSchema.mk (refPathToObjName sp.getReference) none [] [] none)

/-- C5 witness: with an implicit discriminator, three members whose keys
collide down to two mapping entries are rejected with the
incomplete-mapping error, and two fully covered members succeed. -/
theorem c5_discriminator_mapping_completeness_witness :
    (generateUnion c5Gen c5Env [.ref "#/c/A", .ref "#/d/A", .ref "#/c/B"]
        (some ⟨"kind", []⟩) ⟨[], ""⟩ = .error ErrDiscriminatorNotAllMapped)
    ∧ (generateUnion c5Gen c5Env [.ref "#/c/A", .ref "#/c/B"]
        (some ⟨"kind", []⟩) ⟨[], ""⟩ =
      .ok (GoSchema.mk "" none [] ["A", "B"]
          (some (DiscriminatorOut.mk "kind" [("A", "A"), ("B", "B")])), [])) :=
  ⟨(c5_discriminator_mapping_completeness c5Gen c5Env
      [.ref "#/c/A", .ref "#/d/A", .ref "#/c/B"] ⟨"kind", []⟩ ⟨[], ""⟩
      ⟨[], ["A", "A", "B"], [("A", "A"), ("B", "B")], []⟩
      (.ref "#/c/A") (.ref "#/d/A") [.ref "#/c/B"]
      (by decide) (by rfl) (by rfl)).1 (by decide),
    (c5_discriminator_mapping_completeness c5Gen c5Env
      [.ref "#/c/A", .ref "#/c/B"] ⟨"kind", []⟩ ⟨[], ""⟩
      ⟨[], ["A", "B"], [("A", "A"), ("B", "B")], []⟩
      (.ref "#/c/A") (.ref "#/c/B") []
      (by decide) (by rfl) (by rfl)).2 (by decide)⟩

/-! ## C4 -/

theorem unionLoopStep_ok_of_ref
    (genGo : SchemaProxy → ParseOptions → Except UnionErr GoSchema)
    (d : DiscriminatorSpec) (options : ParseOptions) (st : UnionState)
    (i : Nat) (e : SchemaProxy) (s : GoSchema)
    (hs : genGo e ((options.WithReference e.getReference).WithPath
      (options.path ++ [toString i])) = .ok s)
    (href : e.getReference ≠ "") :
    ∃ st', unionLoopStep genGo (some d) options st i e = .ok st' := by
  rw [unionLoopStep]
  simp only [hs]
  rw [if_neg (fun hc => href hc.2)]
  cases d.mapping.find? (fun kv => kv.2 == e.getReference) <;> exact ⟨_, rfl⟩

theorem unionLoop_ambiguous_of_refless
    (genGo : SchemaProxy → ParseOptions → Except UnionErr GoSchema)
    (d : DiscriminatorSpec) (options : ParseOptions)
    (hd : d.mapping ≠ []) :
    ∀ (l : List (Nat × SchemaProxy)) (st : UnionState),
      (∀ ie ∈ l, ∃ s, genGo ie.2 ((options.WithReference ie.2.getReference).WithPath
        (options.path ++ [toString ie.1])) = .ok s) →
      (∃ ie ∈ l, ie.2.getReference = "") →
      l.foldlM (fun st ie => unionLoopStep genGo (some d) options st ie.1 ie.2) st =
        .error ErrAmbiguousDiscriminatorMapping := by
  intro l
  induction l with
  | nil =>
    intro st _ hex
    rcases hex with ⟨ie, hie, _⟩
    exact absurd hie (List.not_mem_nil ie)
  | cons ie rest ih =>
    intro st hok hex
    rcases hok ie (List.mem_cons_self ie rest) with ⟨s, hs⟩
    by_cases hr : ie.2.getReference = ""
    · have hstep : unionLoopStep genGo (some d) options st ie.1 ie.2 =
          .error ErrAmbiguousDiscriminatorMapping := by
        rw [unionLoopStep]
        simp only [hs]
        rw [if_pos ⟨fun h0 => hd (List.length_eq_zero.mp h0), hr⟩]
      rw [List.foldlM_cons, hstep]
      rfl
    · rcases unionLoopStep_ok_of_ref genGo d options st ie.1 ie.2 s hs hr with ⟨st', hst'⟩
      rw [List.foldlM_cons, hst']
      show rest.foldlM _ st' = _
      refine ih st' (fun x hx => hok x (List.mem_cons_of_mem ie hx)) ?_
      rcases hex with ⟨je, hje, hjr⟩
      rcases List.mem_cons.mp hje with rfl | hje'
      · exact absurd hjr hr
      · exact ⟨je, hje', hjr⟩

/-- C4 (amended): a surviving member with no discoverable reference causes
the ambiguous-mapping failure exactly in the case the code tests for: when
the declared discriminator carries a non-empty explicit mapping.  (With an
empty explicit mapping the member is instead given an implicit key derived
from its empty reference; see the counterexample.) -/
theorem c4_refless_member_ambiguous_error
    (genGo : SchemaProxy → ParseOptions → Except UnionErr GoSchema)
    (env : SchemaEnv) (elements : List SchemaProxy) (d : DiscriminatorSpec)
    (options : ParseOptions) (n1 n2 : SchemaProxy) (nrest : List SchemaProxy)
    (hd : d.mapping ≠ [])
    (hlen : 2 ≤ elements.length)
    (hnn : (nullFilter env elements).1 = n1 :: n2 :: nrest)
    (hok : ∀ ie ∈ (n1 :: n2 :: nrest).enum,
      ∃ s, genGo ie.2 ((options.WithReference ie.2.getReference).WithPath
        (options.path ++ [toString ie.1])) = .ok s)
    (hrefless : ∃ ie ∈ (n1 :: n2 :: nrest).enum, ie.2.getReference = "") :
    generateUnion genGo env elements (some d) options =
      .error ErrAmbiguousDiscriminatorMapping := by
  match elements, hlen with
  | a :: b :: rest, _ =>
    rw [generateUnion]
    case x_1 => simp
    have hloop : unionLoop genGo (some d) options (n1 :: n2 :: nrest) =
        .error ErrAmbiguousDiscriminatorMapping :=
      unionLoop_ambiguous_of_refless genGo d options hd _ _ hok hrefless
    simp only [hnn, hloop]

def c4Obj : Schema := .mk "" ["object"] [] [] none none [] [] [] none

def c4Env : SchemaEnv := [("#/c/A", c4Obj)]

def c4Gen : SchemaProxy → ParseOptions → Except UnionErr GoSchema :=
  fun sp _ => .ok (GoSchema.mk
    (if sp.getReference == "" then "struct" else refPathToObjName sp.getReference)
    none [] [] none)

/-- C4 counterexample: a union of a referenced member and an inline
(reference-less) member under a declared discriminator whose explicit
mapping is empty does NOT fail with the ambiguous-mapping error; synthesis
succeeds, giving the inline member the implicit mapping key `""`. -/
theorem c4_refless_member_ambiguous_error_counterexample :
    generateUnion c4Gen c4Env [.ref "#/c/A", .inline c4Obj]
        (some ⟨"kind", []⟩) ⟨[], ""⟩ =
      .ok (GoSchema.mk "" none
          [TypeDefinition.mk (GoSchema.mk "struct" none [] [] none) "1"
            SpecLocationUnion "-" false]
          ["A", "1"]
          (some (DiscriminatorOut.mk "kind" [("A", "A"), ("", "1")])),
        [TypeDefinition.mk (GoSchema.mk "struct" none [] [] none) "1"
          SpecLocationUnion "-" false]) := by
  rfl

/-- C4 witness: the same two members with a non-empty explicit mapping are
rejected with the ambiguous-mapping error. -/
theorem c4_refless_member_ambiguous_error_witness :
    generateUnion c4Gen c4Env [.ref "#/c/A", .inline c4Obj]
        (some ⟨"kind", [("a", "#/c/A")]⟩) ⟨[], ""⟩ =
      .error ErrAmbiguousDiscriminatorMapping :=
  c4_refless_member_ambiguous_error c4Gen c4Env [.ref "#/c/A", .inline c4Obj]
    ⟨"kind", [("a", "#/c/A")]⟩ ⟨[], ""⟩ (.ref "#/c/A") (.inline c4Obj) []
    (by decide) (by decide) (by rfl)
    (by intro ie _; exact ⟨_, rfl⟩)
    ⟨(1, .inline c4Obj), by exact List.mem_cons_of_mem _ (List.mem_cons_self _ _), rfl⟩

/-! ## C2 -/

/-- C2 (amended): a filter axis that is nil performs no filtering on that
axis: with `Include.Paths` nil, a path can only be removed by the
`Exclude.Paths` axis; with `Include.OperationIDs` nil, an operation can only
be removed by the tags axes or `Exclude.OperationIDs`.  (A non-nil
zero-length `Include.Paths` or `Include.OperationIDs`, by contrast, removes
every path / operation, see the counterexample.) -/
theorem c2_nil_axes_filter_nothing
    (model : Document) (cfg : FilterConfig) (items : List (String × PathItem))
    (p : String) (op : Operation)
    (hitems : model.paths = some items)
    (hincp : cfg.Include.Paths = none)
    (hinco : cfg.Include.OperationIDs = none)
    (hp : p ∈ items.map Prod.fst)
    (hgone : p ∉ ((filterOperations model cfg).paths.getD []).map Prod.fst) :
    p ∈ cfg.Exclude.Paths.getD [] ∧
      (operationRemoved cfg op = true →
        (op.tags.any fun t => (cfg.Exclude.Tags.getD []).contains t) = true
        ∨ ((cfg.Include.Tags.getD []).length > 0
            ∧ (op.tags.any fun t => (cfg.Include.Tags.getD []).contains t) = false)
        ∨ (cfg.Exclude.OperationIDs.isSome = true
            ∧ (cfg.Exclude.OperationIDs.getD []).contains op.operationId = true)) := by
  constructor
  · by_contra hex
    apply hgone
    rcases List.mem_map.mp hp with ⟨kv, hkv, hfst⟩
    subst hfst
    rw [filterOperations]
    simp only [hitems, Option.map_some', Option.getD_some]
    refine List.mem_map.mpr ⟨(kv.1, filterPathItemOps cfg kv.2), ?_, rfl⟩
    refine List.mem_filterMap.mpr ⟨kv, hkv, ?_⟩
    rw [if_neg (by simp [hincp]), if_neg (by simp; intro _; exact fun h => hex (by simpa using h))]
  · intro h
    simp only [operationRemoved, hinco, Option.isSome_none, Bool.false_and,
      Bool.or_false, Bool.or_eq_true, Bool.and_eq_true, decide_eq_true_eq,
      Bool.not_eq_true'] at h
    rcases h with (h1 | h2) | h3
    · exact Or.inl h1
    · exact Or.inr (Or.inl h2)
    · exact Or.inr (Or.inr h3)

def c2Op : Operation := ⟨[], "getP", [], none, none⟩

def c2Item : PathItem := ⟨[], some c2Op, none, none, none, none, none, none, none⟩

def c2Comps : Components := ⟨[], [], [], [], [], [], [], [], []⟩

def c2Doc : Document := ⟨some [("/p", c2Item)], c2Comps, []⟩

def c2Cfg : FilterConfig := ⟨⟨some [], none, none, []⟩, ⟨none, some ["b"], none, []⟩⟩

/-- C2 counterexample: with `Include.Paths` a non-nil empty (zero-length)
slice and a non-empty `Exclude.Tags` axis (so the whole-config early return
does not fire), filtering removes every path — here `/p` is removed even
though `Exclude.Paths` is nil, i.e. it is removed for being absent from the
zero-length `Include.Paths`. -/
theorem c2_empty_axis_counterexample :
    filterOutDocument c2Doc c2Cfg = .ok ⟨some [], c2Comps, []⟩
    ∧ c2Cfg.Include.Paths = some ([] : List String)
    ∧ c2Cfg.Exclude.Paths = none :=
  ⟨rfl, rfl, rfl⟩

def c2WCfg : FilterConfig := ⟨⟨none, none, none, []⟩, ⟨some ["/p"], none, none, []⟩⟩

/-- C2 witness: with both Include axes nil, a removed path is accounted for
by `Exclude.Paths`, and operation removal is decided by the other axes. -/
theorem c2_nil_axes_filter_nothing_witness :
    "/p" ∈ c2WCfg.Exclude.Paths.getD [] ∧
      (operationRemoved c2WCfg c2Op = true →
        (c2Op.tags.any fun t => (c2WCfg.Exclude.Tags.getD []).contains t) = true
        ∨ ((c2WCfg.Include.Tags.getD []).length > 0
            ∧ (c2Op.tags.any fun t => (c2WCfg.Include.Tags.getD []).contains t) = false)
        ∨ (c2WCfg.Exclude.OperationIDs.isSome = true
            ∧ (c2WCfg.Exclude.OperationIDs.getD []).contains c2Op.operationId = true)) :=
  c2_nil_axes_filter_nothing c2Doc c2WCfg [("/p", c2Item)] "/p" c2Op
    (by rfl) (by rfl) (by rfl) (by decide) (by decide)

/-! ## Pruning loop lemmas (C7, C8, C1) -/

theorem pruneTable_count_zero {α : Type} (kind : String) (refs : List String) :
    ∀ tbl : List (String × α), (pruneTable kind refs tbl).2 = 0 →
      (pruneTable kind refs tbl).1 = tbl := by
  intro tbl
  induction tbl with
  | nil => intro _; rfl
  | cons kv rest ih =>
    intro h
    by_cases hin : ("#/components/" ++ kind ++ "/" ++ kv.1) ∈ refs
    · simp only [pruneTable, if_pos hin] at h ⊢
      rw [ih h]
    · simp only [pruneTable, if_neg hin] at h
      exact absurd h (Nat.succ_ne_zero _)

theorem pruneCount_zero_step (m : Document) (h : pruneCount m = 0) :
    pruneStep m = m := by
  rw [pruneCount, removeOrphanedComponents] at h
  simp only at h
  have h1 := pruneTable_count_zero "schemas" (findOperationRefs m)
    m.components.schemas (by omega)
  have h2 := pruneTable_count_zero "parameters" (findOperationRefs m)
    m.components.parameters (by omega)
  have h3 := pruneTable_count_zero "requestBodies" (findOperationRefs m)
    m.components.requestBodies (by omega)
  have h4 := pruneTable_count_zero "responses" (findOperationRefs m)
    m.components.responses (by omega)
  have h5 := pruneTable_count_zero "headers" (findOperationRefs m)
    m.components.headers (by omega)
  rw [pruneStep, removeOrphanedComponents]
  simp only [h1, h2, h3, h4, h5]

theorem pruneLoopGo_reaches :
    ∀ (k r : Nat) (m : Document), k < r →
      (∀ j, j < k → 1 ≤ pruneCount (pruneStep^[j] m)) →
      pruneCount (pruneStep^[k] m) = 0 →
      pruneLoopGo r m = .ok (pruneStep^[k] m) := by
  intro k
  induction k with
  | zero =>
    intro r m hr _ hz
    obtain ⟨r', rfl⟩ : ∃ r', r = r' + 1 := ⟨r - 1, by omega⟩
    rw [Function.iterate_zero_apply] at hz ⊢
    rw [pruneLoopGo]
    show (if (removeOrphanedComponents m (findOperationRefs m)).2 < 1 then
      Except.ok (removeOrphanedComponents m (findOperationRefs m)).1 else _) = _
    rw [if_pos (show (removeOrphanedComponents m (findOperationRefs m)).2 < 1 by
      have hrfl : (removeOrphanedComponents m (findOperationRefs m)).2 = pruneCount m := rfl
      omega)]
    exact congrArg Except.ok (pruneCount_zero_step m hz)
  | succ k ih =>
    intro r m hr hpos hz
    obtain ⟨r', rfl⟩ : ∃ r', r = r' + 1 := ⟨r - 1, by omega⟩
    have h0 : 1 ≤ pruneCount m := by
      have := hpos 0 (Nat.succ_pos k)
      rwa [Function.iterate_zero_apply] at this
    rw [pruneLoopGo]
    show (if (removeOrphanedComponents m (findOperationRefs m)).2 < 1 then _ else
      pruneLoopGo r' (removeOrphanedComponents m (findOperationRefs m)).1) = _
    rw [if_neg (show ¬ (removeOrphanedComponents m (findOperationRefs m)).2 < 1 by
      have hrfl : (removeOrphanedComponents m (findOperationRefs m)).2 = pruneCount m := rfl
      omega)]
    have hres := ih r' (pruneStep m) (by omega)
      (fun j hj => by
        have := hpos (j + 1) (by omega)
        rwa [Function.iterate_succ_apply] at this)
      (by rwa [Function.iterate_succ_apply] at hz)
    rw [Function.iterate_succ_apply]
    exact hres

/-! ## C7 -/

/-- C7: the pruning loop stops at the first iteration that deletes no
component, returning that model; past the fixed cap of 1000 iterations the
loop aborts with a fatal error whose message states the cap, and the error
carries no model (no partial output). -/
theorem c7_prune_loop_cap (model : Document) (k : Nat)
    (hk : k < maxIterations)
    (hpos : ∀ j, j < k → 1 ≤ pruneCount (pruneStep^[j] (sanitizeModel model)))
    (hz : pruneCount (pruneStep^[k] (sanitizeModel model)) = 0) :
    pruneSchema model = .ok (pruneStep^[k] (sanitizeModel model))
    ∧ (∀ m : Document, pruneLoopGo 0 m = .error capMessage)
    ∧ containsSub capMessage "1000" = true :=
  ⟨pruneLoopGo_reaches k maxIterations (sanitizeModel model) hk hpos hz,
    fun _ => rfl, by decide⟩

def c7Model : Document := ⟨none, ⟨[], [], [], [], [], [], [], [], []⟩, []⟩

/-- C7 witness: a model whose first iteration already deletes nothing is
returned after that iteration. -/
theorem c7_prune_loop_cap_witness :
    pruneSchema c7Model = .ok (pruneStep^[0] (sanitizeModel c7Model))
    ∧ (∀ m : Document, pruneLoopGo 0 m = .error capMessage)
    ∧ containsSub capMessage "1000" = true :=
  c7_prune_loop_cap c7Model 0 (by decide)
    (fun j hj => absurd hj (Nat.not_lt_zero j)) (by rfl)

/-! ## C8 -/

theorem sanitize_idem (m : Document) :
    sanitizeModel (sanitizeModel m) = sanitizeModel m :=
  rfl

theorem sanitized_pruneStep (m : Document) (h : sanitizeModel m = m) :
    sanitizeModel (pruneStep m) = pruneStep m := by
  rcases m with ⟨pa, ⟨s, p, rb, rs, hh, ss, cb, ex, li⟩, wh⟩
  simp only [sanitizeModel] at h
  injection h with hpa hcomp hwh
  injection hcomp with h1 h2 h3 h4 h5 hss hcb hex hli
  subst hss
  subst hcb
  subst hex
  subst hli
  subst hwh
  rfl

theorem pruneLoopGo_ok_fixpoint :
    ∀ (r : Nat) (m m2 : Document), pruneLoopGo r m = .ok m2 →
      pruneCount m2 = 0 ∧ (sanitizeModel m = m → sanitizeModel m2 = m2) := by
  intro r
  induction r with
  | zero =>
    intro m m2 h
    exact absurd h (by rw [pruneLoopGo]; intro hc; cases hc)
  | succ r ih =>
    intro m m2 h
    rw [pruneLoopGo] at h
    by_cases hc : (removeOrphanedComponents m (findOperationRefs m)).2 < 1
    · rw [if_pos hc] at h
      have hz : pruneCount m = 0 := by
        have hrfl : (removeOrphanedComponents m (findOperationRefs m)).2 = pruneCount m := rfl
        omega
      injection h with h'
      have hm2 : m2 = m := by
        rw [← h']
        exact pruneCount_zero_step m hz
      subst hm2
      exact ⟨hz, fun hs => hs⟩
    · rw [if_neg hc] at h
      rcases ih _ _ h with ⟨h1, h2⟩
      exact ⟨h1, fun hs => h2 (sanitized_pruneStep m hs)⟩

/-- C8: pruning is idempotent.  A model on which `pruneSchema` terminated
normally removes zero components in the first iteration of a second run,
and a second run returns it unchanged. -/
theorem c8_prune_idempotent (model model2 : Document)
    (h : pruneSchema model = .ok model2) :
    pruneCount model2 = 0 ∧ pruneSchema model2 = .ok model2 := by
  have hfix := pruneLoopGo_ok_fixpoint maxIterations (sanitizeModel model) model2 h
  have hz : pruneCount model2 = 0 := hfix.1
  have hsan : sanitizeModel model2 = model2 := hfix.2 (sanitize_idem model)
  refine ⟨hz, ?_⟩
  rw [pruneSchema, hsan]
  rw [show maxIterations = 999 + 1 from rfl, pruneLoopGo]
  show (if (removeOrphanedComponents model2 (findOperationRefs model2)).2 < 1 then
    Except.ok (removeOrphanedComponents model2 (findOperationRefs model2)).1 else _) = _
  rw [if_pos (show (removeOrphanedComponents model2 (findOperationRefs model2)).2 < 1 by
    have hrfl : (removeOrphanedComponents model2 (findOperationRefs model2)).2 =
      pruneCount model2 := rfl
    omega)]
  exact congrArg Except.ok (pruneCount_zero_step model2 hz)

def c8Schema : Schema := .mk "" ["object"] [] [] none none [] [] [] none

def c8Model : Document :=
  ⟨some [("/q", ⟨[], some ⟨[], "op", [],
      some ⟨"#/components/requestBodies/Body", []⟩, none⟩,
    none, none, none, none, none, none, none⟩)],
  ⟨[], [], [("Body", ⟨"", [("application/json",
      ⟨some (.ref "#/components/schemas/S")⟩)]⟩)], [], [], [], [], [], []⟩, []⟩

/-- C8 witness: a successfully pruned model (an operation referencing a
request body) re-runs to the identical model with a zero-deletion first
iteration. -/
theorem c8_prune_idempotent_witness :
    pruneCount c8Model = 0 ∧ pruneSchema c8Model = .ok c8Model :=
  c8_prune_idempotent c8Model c8Model (by rfl)

/-! ## C1 -/

theorem pruneTable_complete {α : Type} (kind : String) (refs : List String) :
    ∀ tbl : List (String × α), (pruneTable kind refs tbl).2 = 0 →
      ∀ kv ∈ tbl, ("#/components/" ++ kind ++ "/" ++ kv.1) ∈ refs := by
  intro tbl
  induction tbl with
  | nil => intro _ kv hkv; exact absurd hkv (List.not_mem_nil kv)
  | cons kv0 rest ih =>
    intro h kv hkv
    by_cases hin : ("#/components/" ++ kind ++ "/" ++ kv0.1) ∈ refs
    · rcases List.mem_cons.mp hkv with rfl | hkv'
      · exact hin
      · simp only [pruneTable, if_pos hin] at h
        exact ih h kv hkv'
    · simp only [pruneTable, if_neg hin] at h
      exact absurd h (Nat.succ_ne_zero _)

theorem pruneTable_preserves {α : Type} (kind : String) (refs : List String) :
    ∀ (tbl : List (String × α)) (kv : String × α), kv ∈ tbl →
      ("#/components/" ++ kind ++ "/" ++ kv.1) ∈ refs →
      kv ∈ (pruneTable kind refs tbl).1 := by
  intro tbl
  induction tbl with
  | nil => intro kv hkv _; exact absurd hkv (List.not_mem_nil kv)
  | cons kv0 rest ih =>
    intro kv hkv href
    rcases List.mem_cons.mp hkv with rfl | hkv'
    · simp only [pruneTable, if_pos href]
      exact List.mem_cons_self _ _
    · by_cases hin : ("#/components/" ++ kind ++ "/" ++ kv0.1) ∈ refs
      · simp only [pruneTable, if_pos hin]
        exact List.mem_cons_of_mem _ (ih kv hkv' href)
      · simp only [pruneTable, if_neg hin]
        exact ih kv hkv' href

/-- C1 (amended): when the pruning loop terminates normally, the surviving
document is a fixpoint of orphan removal: every surviving named component's
reference is in the reference set the collector computes on the final
document, and the removal pass never deletes a component whose reference is
in the collected set.  (This is the collector's one-step mention relation
seeded from operations and from every surviving component — not transitive
reachability from operations alone; see the counterexample, where a
self-referencing orphan schema survives.) -/
theorem c1_prune_fixpoint_characterisation (model model2 : Document)
    (h : pruneSchema model = .ok model2) :
    (∀ kv ∈ model2.components.schemas,
      ("#/components/schemas/" ++ kv.1) ∈ findOperationRefs model2)
    ∧ (∀ kv ∈ model2.components.parameters,
      ("#/components/parameters/" ++ kv.1) ∈ findOperationRefs model2)
    ∧ (∀ kv ∈ model2.components.requestBodies,
      ("#/components/requestBodies/" ++ kv.1) ∈ findOperationRefs model2)
    ∧ (∀ kv ∈ model2.components.responses,
      ("#/components/responses/" ++ kv.1) ∈ findOperationRefs model2)
    ∧ (∀ kv ∈ model2.components.headers,
      ("#/components/headers/" ++ kv.1) ∈ findOperationRefs model2)
    ∧ (∀ (α : Type) (kind : String) (refs : List String)
        (tbl : List (String × α)) (kv : String × α), kv ∈ tbl →
        ("#/components/" ++ kind ++ "/" ++ kv.1) ∈ refs →
        kv ∈ (pruneTable kind refs tbl).1) := by
  have hz : pruneCount model2 = 0 :=
    (pruneLoopGo_ok_fixpoint maxIterations (sanitizeModel model) model2 h).1
  rw [pruneCount, removeOrphanedComponents] at hz
  simp only at hz
  refine ⟨?_, ?_, ?_, ?_, ?_, fun α kind refs tbl kv => pruneTable_preserves kind refs tbl kv⟩
  · exact pruneTable_complete "schemas" (findOperationRefs model2)
      model2.components.schemas (by omega)
  · exact pruneTable_complete "parameters" (findOperationRefs model2)
      model2.components.parameters (by omega)
  · exact pruneTable_complete "requestBodies" (findOperationRefs model2)
      model2.components.requestBodies (by omega)
  · exact pruneTable_complete "responses" (findOperationRefs model2)
      model2.components.responses (by omega)
  · exact pruneTable_complete "headers" (findOperationRefs model2)
      model2.components.headers (by omega)

def c1Schema : Schema :=
  .mk "" ["object"] [] [("self", .ref "#/components/schemas/A")] none none [] [] []
    none

def c1Model : Document :=
  ⟨some [], ⟨[("A", .inline c1Schema)], [], [], [], [], [], [], [], []⟩, []⟩

/-- C1 counterexample: a document with an empty path map (hence no surviving
operation at all, so nothing is transitively reachable from any operation)
and a single self-referencing schema `A`.  Pruning terminates normally on
the first iteration and leaves `A` standing: an unreachable component
remains after normal termination, because the collector also walks every
component and `A` keeps itself alive. -/
theorem c1_prune_fixpoint_counterexample :
    pruneSchema c1Model = .ok c1Model
    ∧ c1Model.components.schemas.map Prod.fst = ["A"]
    ∧ c1Model.paths = some [] :=
  ⟨rfl, rfl, rfl⟩

def c1WModel : Document :=
  ⟨some [("/w", ⟨[], some ⟨[], "op",
      [⟨"", some (.ref "#/components/schemas/S"), []⟩], none, none⟩,
    none, none, none, none, none, none, none⟩)],
  ⟨[("S", .inline (.mk "" ["object"] [] [] none none [] [] [] none))],
    [], [], [], [], [], [], [], []⟩, []⟩

/-- C1 witness: a pruned document with one operation referencing schema `S`
satisfies the fixpoint characterisation. -/
theorem c1_prune_fixpoint_characterisation_witness :
    (∀ kv ∈ c1WModel.components.schemas,
      ("#/components/schemas/" ++ kv.1) ∈ findOperationRefs c1WModel)
    ∧ (∀ kv ∈ c1WModel.components.parameters,
      ("#/components/parameters/" ++ kv.1) ∈ findOperationRefs c1WModel)
    ∧ (∀ kv ∈ c1WModel.components.requestBodies,
      ("#/components/requestBodies/" ++ kv.1) ∈ findOperationRefs c1WModel)
    ∧ (∀ kv ∈ c1WModel.components.responses,
      ("#/components/responses/" ++ kv.1) ∈ findOperationRefs c1WModel)
    ∧ (∀ kv ∈ c1WModel.components.headers,
      ("#/components/headers/" ++ kv.1) ∈ findOperationRefs c1WModel)
    ∧ (∀ (α : Type) (kind : String) (refs : List String)
        (tbl : List (String × α)) (kv : String × α), kv ∈ tbl →
        ("#/components/" ++ kind ++ "/" ++ kv.1) ∈ refs →
        kv ∈ (pruneTable kind refs tbl).1) :=
  c1_prune_fixpoint_characterisation c1WModel c1WModel (by rfl)

/-! ## C10 -/

/-- C10: when `collectSchemaRefs` reaches the array-items branch of a schema
whose items proxy carries a reference already present in the reference set,
the whole call returns at once with the set accumulated so far — the
additionalProperties branch and the allOf/oneOf/anyOf/not loop of the same
schema are skipped, so references occurring only there are not recorded in
that call.  The additionalProperties branch behaves the same way towards
the composition loop (second conjunct). -/
theorem c10_items_early_return (env : SchemaEnv) (n : Nat) (s : Schema)
    (set : List String) (r : String)
    (hTop : ¬ (s.ref ≠ "" ∧ s.ref ∈ set))
    (hItems : s.items = some (.ref r))
    (hr : r ≠ "")
    (hmem : r ∈ propsPhase (collectF env n) env s set) :
    collectF env (n + 1) (some s) set = propsPhase (collectF env n) env s set
    ∧ (∀ (s2 : Schema) (set2 : List String) (r2 : String),
      ¬ (s2.ref ≠ "" ∧ s2.ref ∈ set2) → s2.items = none →
      s2.addProps = some (.ref r2) → r2 ≠ "" →
      r2 ∈ propsPhase (collectF env n) env s2 set2 →
      collectF env (n + 1) (some s2) set2 =
        propsPhase (collectF env n) env s2 set2) := by
  constructor
  · rw [collectF, if_neg hTop, collectBody]
    simp only [hItems, itemStep, if_neg hr, if_pos hmem]
  · intro s2 set2 r2 hTop2 hItems2 hAP hr2 hmem2
    rw [collectF, if_neg hTop2, collectBody]
    simp only [hItems2, apPhase, hAP, itemStep, if_neg hr2, if_pos hmem2]

def c10Schema : Schema :=
  .mk "" ["array"] [] [] (some (.ref "#/components/schemas/S")) none
    [] [] [.ref "#/components/schemas/T"] none

/-- C10 witness: with `#/components/schemas/S` already recorded, the call on
a schema whose items reference it leaves the set unchanged, and the anyOf
reference `#/components/schemas/T` is not recorded. -/
theorem c10_items_early_return_witness :
    (collectF [] 1 (some c10Schema) ["#/components/schemas/S"] =
        propsPhase (collectF [] 0) [] c10Schema ["#/components/schemas/S"]
      ∧ (∀ (s2 : Schema) (set2 : List String) (r2 : String),
        ¬ (s2.ref ≠ "" ∧ s2.ref ∈ set2) → s2.items = none →
        s2.addProps = some (.ref r2) → r2 ≠ "" →
        r2 ∈ propsPhase (collectF [] 0) [] s2 set2 →
        collectF [] 1 (some s2) set2 = propsPhase (collectF [] 0) [] s2 set2))
    ∧ "#/components/schemas/T" ∉
        collectF [] 1 (some c10Schema) ["#/components/schemas/S"] :=
  ⟨c10_items_early_return [] 0 c10Schema ["#/components/schemas/S"]
      "#/components/schemas/S" (by decide) (by rfl) (by decide) (by decide),
    by decide⟩

/-! ## C9: termination of the reference collector

`collectF` is shown to stabilise at the computable fuel bound
`collectBound`: every recursive call either descends into a structurally
smaller inline schema or follows a reference it has just added to the
visited set, permanently removing an unvisited environment entry.  The only
well-formedness needed of the schema graph is that no component is keyed by
the empty reference (the Go code uses `""` as the "no reference"
sentinel). -/

theorem mem_insertRef_iff (x r : String) (set : List String) :
    x ∈ insertRef r set ↔ x ∈ set ∨ x = r := by
  rw [insertRef]
  split
  · rename_i h
    constructor
    · exact Or.inl
    · rintro (hx | rfl)
      · exact hx
      · exact h
  · simp [List.mem_append]

theorem insertRef_subset (r : String) (set : List String) : set ⊆ insertRef r set :=
  fun _ hx => (mem_insertRef_iff _ r set).mpr (Or.inl hx)

theorem addParent_subset (r : String) (set : List String) :
    set ⊆ addParentSchemaRef r set := by
  rw [addParentSchemaRef]
  split
  · exact fun _ hx => hx
  · exact insertRef_subset _ _

theorem foldl_step_subset {β : Type} (g : List String → β → List String)
    (hg : ∀ a b, a ⊆ g a b) :
    ∀ (l : List β) (a : List String), a ⊆ l.foldl g a := by
  intro l
  induction l with
  | nil => exact fun a => fun _ hx => hx
  | cons b bs ih => exact fun a => (hg a b).trans (ih (g a b))

theorem propStep_mono (rec : Option Schema → List String → List String)
    (env : SchemaEnv) (hrec : ∀ o a, a ⊆ rec o a) (p : SchemaProxy)
    (a : List String) : a ⊆ propStep rec env p a := by
  cases p with
  | inline sub => exact hrec _ _
  | ref r =>
    rw [propStep]
    split
    · exact hrec _ _
    · split
      · exact fun _ hx => hx
      · exact ((insertRef_subset r a).trans (addParent_subset r _)).trans (hrec _ _)

theorem groupStep_mono (rec : Option Schema → List String → List String)
    (env : SchemaEnv) (hrec : ∀ o a, a ⊆ rec o a) (p : SchemaProxy)
    (a : List String) : a ⊆ groupStep rec env p a := by
  cases p with
  | inline sub => exact hrec _ _
  | ref r =>
    rw [groupStep]
    split
    · exact hrec _ _
    · split
      · exact fun _ hx => hx
      · exact (insertRef_subset r a).trans (hrec _ _)

theorem itemStep_mono (rec : Option Schema → List String → List String)
    (env : SchemaEnv) (hrec : ∀ o a, a ⊆ rec o a) (p : SchemaProxy)
    (a b : List String) (h : itemStep rec env p a = some b) : a ⊆ b := by
  cases p with
  | inline sub =>
    rw [itemStep] at h
    cases h
    exact hrec _ _
  | ref r =>
    rw [itemStep] at h
    split at h
    · cases h
      exact hrec _ _
    · split at h
      · cases h
      · cases h
        exact (insertRef_subset r a).trans (hrec _ _)

theorem propsPhase_mono (rec : Option Schema → List String → List String)
    (env : SchemaEnv) (hrec : ∀ o a, a ⊆ rec o a) (s : Schema)
    (set : List String) : set ⊆ propsPhase rec env s set := by
  rw [propsPhase]
  refine List.Subset.trans ?_ (foldl_step_subset _
    (fun a kv => propStep_mono rec env hrec kv.2 a) s.properties _)
  split
  · exact fun _ hx => hx
  · exact (insertRef_subset _ _).trans (addParent_subset _ _)

theorem groupsPhase_mono (rec : Option Schema → List String → List String)
    (env : SchemaEnv) (hrec : ∀ o a, a ⊆ rec o a) (s : Schema)
    (set : List String) : set ⊆ groupsPhase rec env s set :=
  foldl_step_subset _ (fun a p => groupStep_mono rec env hrec p a) _ set

theorem apPhase_mono (rec : Option Schema → List String → List String)
    (env : SchemaEnv) (hrec : ∀ o a, a ⊆ rec o a) (s : Schema)
    (set : List String) : set ⊆ apPhase rec env s set := by
  rw [apPhase]
  split
  · exact groupsPhase_mono rec env hrec s set
  · rename_i p _
    cases hstep : itemStep rec env p set with
    | none => exact fun _ hx => hx
    | some set2 =>
      exact (itemStep_mono rec env hrec p set set2 hstep).trans
        (groupsPhase_mono rec env hrec s set2)

theorem collectBody_mono (rec : Option Schema → List String → List String)
    (env : SchemaEnv) (hrec : ∀ o a, a ⊆ rec o a) (s : Schema)
    (set : List String) : set ⊆ collectBody rec env s set := by
  rw [collectBody]
  have h1 := propsPhase_mono rec env hrec s set
  split
  · exact h1.trans (apPhase_mono rec env hrec s _)
  · rename_i p _
    cases hstep : itemStep rec env p (propsPhase rec env s set) with
    | none => exact h1
    | some set2 =>
      exact (h1.trans (itemStep_mono rec env hrec p _ set2 hstep)).trans
        (apPhase_mono rec env hrec s set2)

theorem collectF_none (env : SchemaEnv) (n : Nat) (set : List String) :
    collectF env n none set = set := by
  cases n <;> rfl

theorem collectF_mono (env : SchemaEnv) :
    ∀ (n : Nat) (o : Option Schema) (set : List String), set ⊆ collectF env n o set := by
  intro n
  induction n with
  | zero => intro o set _ hx; exact hx
  | succ n ih =>
    intro o set
    cases o with
    | none => intro _ hx; exact hx
    | some s =>
      rw [collectF]
      split
      · exact fun _ hx => hx
      · exact collectBody_mono (collectF env n) env (fun o a => ih o a) s set

theorem proxySize_pos (p : SchemaProxy) : 1 ≤ proxySize p := by
  cases p <;> simp [proxySize]

theorem schemaSize_pos (s : Schema) : 1 ≤ schemaSize s := by
  cases s
  rw [schemaSize]
  omega

theorem propsSize_mem (props : List (String × SchemaProxy)) (kv : String × SchemaProxy)
    (h : kv ∈ props) : proxySize kv.2 < propsSize props := by
  induction props with
  | nil => exact absurd h (List.not_mem_nil kv)
  | cons kv0 rest ih =>
    rcases List.mem_cons.mp h with rfl | h'
    · rw [propsSize]; omega
    · have := ih h'
      rw [propsSize]
      omega

theorem proxiesSize_mem (l : List SchemaProxy) (p : SchemaProxy) (h : p ∈ l) :
    proxySize p < proxiesSize l := by
  induction l with
  | nil => exact absurd h (List.not_mem_nil p)
  | cons q rest ih =>
    rcases List.mem_cons.mp h with rfl | h'
    · rw [proxiesSize]; omega
    · have := ih h'
      rw [proxiesSize]
      omega

theorem props_lt_schemaSize (s : Schema) (kv : String × SchemaProxy)
    (h : kv ∈ s.properties) : proxySize kv.2 < schemaSize s := by
  cases s with
  | mk r t q props items ap ao oo an ns =>
    have := propsSize_mem props kv h
    rw [schemaSize]
    omega

theorem items_lt_schemaSize (s : Schema) (p : SchemaProxy)
    (h : s.items = some p) : proxySize p < schemaSize s := by
  cases s with
  | mk r t q props items ap ao oo an ns =>
    rw [Schema.items] at h
    subst h
    rw [schemaSize, optSize]
    omega

theorem addProps_lt_schemaSize (s : Schema) (p : SchemaProxy)
    (h : s.addProps = some p) : proxySize p < schemaSize s := by
  cases s with
  | mk r t q props items ap ao oo an ns =>
    rw [Schema.addProps] at h
    subst h
    rw [schemaSize, optSize]
    omega

theorem groups_lt_schemaSize (s : Schema) (p : SchemaProxy)
    (h : p ∈ s.allOf ++ s.oneOf ++ s.anyOf ++ s.notS.toList) :
    proxySize p < schemaSize s := by
  cases s with
  | mk r t q props items ap ao oo an ns =>
    simp only [Schema.allOf, Schema.oneOf, Schema.anyOf, Schema.notS,
      List.append_assoc, List.mem_append] at h
    rw [schemaSize]
    rcases h with h | h | h | h
    · have := proxiesSize_mem ao p h
      omega
    · have := proxiesSize_mem oo p h
      omega
    · have := proxiesSize_mem an p h
      omega
    · cases ns with
      | none => exact absurd h (List.not_mem_nil p)
      | some pn =>
        rcases List.mem_singleton.mp h with rfl
        rw [optSize]
        omega

theorem envWeight_antitone (env : SchemaEnv) (set set' : List String)
    (h : set ⊆ set') : envWeight set' env ≤ envWeight set env := by
  induction env with
  | nil => exact Nat.le_refl 0
  | cons kv rest ih =>
    rw [envWeight, envWeight]
    by_cases hmem : kv.1 ∈ set
    · rw [if_pos hmem, if_pos (h hmem)]
      omega
    · rw [if_neg hmem]
      split <;> omega

theorem envWeight_insert_lookup (env : SchemaEnv) (r : String) (t : Schema)
    (set : List String) (hl : lookupSchema env r = some t) (hr : r ∉ set) :
    envWeight (insertRef r set) env + (1 + schemaSize t) ≤ envWeight set env := by
  induction env with
  | nil => exact absurd hl (by rw [lookupSchema]; simp)
  | cons kv rest ih =>
    rw [lookupSchema, List.find?] at hl
    by_cases hk : kv.1 = r
    · have hbeq : (kv.1 == r) = true := beq_iff_eq.mpr hk
      rw [hbeq] at hl
      simp only [Option.map_some'] at hl
      rw [envWeight, envWeight]
      rw [if_pos (show kv.1 ∈ insertRef r set from
        (mem_insertRef_iff kv.1 r set).mpr (Or.inr hk))]
      rw [if_neg (show kv.1 ∉ set from fun hm => hr (hk ▸ hm))]
      have htail := envWeight_antitone rest set (insertRef r set) (insertRef_subset r set)
      have ht : kv.2 = t := Option.some.inj hl
      rw [ht]
      omega
    · have hbeq : (kv.1 == r) = false := beq_eq_false_iff_ne.mpr hk
      rw [hbeq] at hl
      have htail := ih (by rw [lookupSchema]; exact hl)
      rw [envWeight, envWeight]
      have hiff : kv.1 ∈ insertRef r set ↔ kv.1 ∈ set := by
        rw [mem_insertRef_iff]
        exact ⟨fun h => h.elim id (fun he => absurd he hk), Or.inl⟩
      by_cases hmem : kv.1 ∈ set
      · rw [if_pos hmem, if_pos (hiff.mpr hmem)]
        omega
      · rw [if_neg hmem, if_neg (fun hm => hmem (hiff.mp hm))]
        omega

theorem lookupSchema_empty_none (env : SchemaEnv)
    (henv : ∀ kv ∈ env, kv.1 ≠ "") : lookupSchema env "" = none := by
  induction env with
  | nil => rfl
  | cons kv rest ih =>
    rw [lookupSchema, List.find?]
    rw [beq_eq_false_iff_ne.mpr (henv kv (List.mem_cons_self kv rest))]
    exact ih (fun x hx => henv x (List.mem_cons_of_mem kv hx))

theorem propStep_agree (env : SchemaEnv) (n' m' b : Nat)
    (henv : ∀ kv ∈ env, kv.1 ≠ "")
    (IH : ∀ (o' : Option Schema) (set' : List String), collectBound env o' set' ≤ b →
      collectF env n' o' set' = collectF env m' o' set')
    (p : SchemaProxy) (a : List String)
    (hb : envWeight a env + proxySize p ≤ b) :
    propStep (collectF env n') env p a = propStep (collectF env m') env p a := by
  cases p with
  | inline sub =>
    show collectF env n' (some sub) a = collectF env m' (some sub) a
    refine IH _ _ ?_
    have hps : proxySize (SchemaProxy.inline sub) = 1 + schemaSize sub := rfl
    rw [hps] at hb
    rw [collectBound, oWeight]
    omega
  | ref r =>
    by_cases hre : r = ""
    · subst hre
      simp only [propStep, if_pos rfl]
      rw [lookupSchema_empty_none env henv]
      simp [collectF_none]
    · simp only [propStep, if_neg hre]
      by_cases hmem : r ∈ a
      · rw [if_pos hmem, if_pos hmem]
      · rw [if_neg hmem, if_neg hmem]
        cases hl : lookupSchema env r with
        | none => rw [collectF_none, collectF_none]
        | some t =>
          refine IH _ _ ?_
          have hpr : proxySize (SchemaProxy.ref r) = 1 := rfl
          rw [hpr] at hb
          have h1 := envWeight_insert_lookup env r t a hl hmem
          have h2 := envWeight_antitone env (insertRef r a)
            (addParentSchemaRef r (insertRef r a)) (addParent_subset r _)
          rw [collectBound, oWeight]
          omega

theorem groupStep_agree (env : SchemaEnv) (n' m' b : Nat)
    (henv : ∀ kv ∈ env, kv.1 ≠ "")
    (IH : ∀ (o' : Option Schema) (set' : List String), collectBound env o' set' ≤ b →
      collectF env n' o' set' = collectF env m' o' set')
    (p : SchemaProxy) (a : List String)
    (hb : envWeight a env + proxySize p ≤ b) :
    groupStep (collectF env n') env p a = groupStep (collectF env m') env p a := by
  cases p with
  | inline sub =>
    show collectF env n' (some sub) a = collectF env m' (some sub) a
    refine IH _ _ ?_
    have hps : proxySize (SchemaProxy.inline sub) = 1 + schemaSize sub := rfl
    rw [hps] at hb
    rw [collectBound, oWeight]
    omega
  | ref r =>
    by_cases hre : r = ""
    · subst hre
      simp only [groupStep, if_pos rfl]
      rw [lookupSchema_empty_none env henv]
      simp [collectF_none]
    · simp only [groupStep, if_neg hre]
      by_cases hmem : r ∈ a
      · rw [if_pos hmem, if_pos hmem]
      · rw [if_neg hmem, if_neg hmem]
        cases hl : lookupSchema env r with
        | none => rw [collectF_none, collectF_none]
        | some t =>
          refine IH _ _ ?_
          have hpr : proxySize (SchemaProxy.ref r) = 1 := rfl
          rw [hpr] at hb
          have h1 := envWeight_insert_lookup env r t a hl hmem
          rw [collectBound, oWeight]
          omega

theorem itemStep_agree (env : SchemaEnv) (n' m' b : Nat)
    (henv : ∀ kv ∈ env, kv.1 ≠ "")
    (IH : ∀ (o' : Option Schema) (set' : List String), collectBound env o' set' ≤ b →
      collectF env n' o' set' = collectF env m' o' set')
    (p : SchemaProxy) (a : List String)
    (hb : envWeight a env + proxySize p ≤ b) :
    itemStep (collectF env n') env p a = itemStep (collectF env m') env p a := by
  cases p with
  | inline sub =>
    show some (collectF env n' (some sub) a) = some (collectF env m' (some sub) a)
    refine congrArg some (IH _ _ ?_)
    have hps : proxySize (SchemaProxy.inline sub) = 1 + schemaSize sub := rfl
    rw [hps] at hb
    rw [collectBound, oWeight]
    omega
  | ref r =>
    by_cases hre : r = ""
    · subst hre
      simp only [itemStep, if_pos rfl]
      rw [lookupSchema_empty_none env henv]
      simp [collectF_none]
    · simp only [itemStep, if_neg hre]
      by_cases hmem : r ∈ a
      · rw [if_pos hmem, if_pos hmem]
      · rw [if_neg hmem, if_neg hmem]
        cases hl : lookupSchema env r with
        | none => rw [collectF_none, collectF_none]
        | some t =>
          refine congrArg some (IH _ _ ?_)
          have hpr : proxySize (SchemaProxy.ref r) = 1 := rfl
          rw [hpr] at hb
          have h1 := envWeight_insert_lookup env r t a hl hmem
          rw [collectBound, oWeight]
          omega

theorem propsFold_agree (env : SchemaEnv) (n' m' b : Nat)
    (henv : ∀ kv ∈ env, kv.1 ≠ "")
    (IH : ∀ (o' : Option Schema) (set' : List String), collectBound env o' set' ≤ b →
      collectF env n' o' set' = collectF env m' o' set')
    (S : Nat) (props : List (String × SchemaProxy))
    (hsz : ∀ kv ∈ props, proxySize kv.2 < S) :
    ∀ a : List String, envWeight a env + S ≤ b + 1 →
      props.foldl (fun acc kv => propStep (collectF env n') env kv.2 acc) a =
        props.foldl (fun acc kv => propStep (collectF env m') env kv.2 acc) a := by
  induction props with
  | nil => intro a _; rfl
  | cons kv rest ih =>
    intro a ha
    rw [List.foldl_cons, List.foldl_cons]
    have hkv := hsz kv (List.mem_cons_self kv rest)
    have hstep : propStep (collectF env n') env kv.2 a =
        propStep (collectF env m') env kv.2 a :=
      propStep_agree env n' m' b henv IH kv.2 a (by omega)
    rw [hstep]
    refine ih (fun x hx => hsz x (List.mem_cons_of_mem kv hx)) _ ?_
    have hsub : a ⊆ propStep (collectF env m') env kv.2 a :=
      propStep_mono _ _ (collectF_mono env m') kv.2 a
    have := envWeight_antitone env a _ hsub
    omega

theorem groupsFold_agree (env : SchemaEnv) (n' m' b : Nat)
    (henv : ∀ kv ∈ env, kv.1 ≠ "")
    (IH : ∀ (o' : Option Schema) (set' : List String), collectBound env o' set' ≤ b →
      collectF env n' o' set' = collectF env m' o' set')
    (S : Nat) (l : List SchemaProxy)
    (hsz : ∀ p ∈ l, proxySize p < S) :
    ∀ a : List String, envWeight a env + S ≤ b + 1 →
      l.foldl (fun acc p => groupStep (collectF env n') env p acc) a =
        l.foldl (fun acc p => groupStep (collectF env m') env p acc) a := by
  induction l with
  | nil => intro a _; rfl
  | cons p rest ih =>
    intro a ha
    rw [List.foldl_cons, List.foldl_cons]
    have hp := hsz p (List.mem_cons_self p rest)
    have hstep : groupStep (collectF env n') env p a =
        groupStep (collectF env m') env p a :=
      groupStep_agree env n' m' b henv IH p a (by omega)
    rw [hstep]
    refine ih (fun x hx => hsz x (List.mem_cons_of_mem p hx)) _ ?_
    have hsub : a ⊆ groupStep (collectF env m') env p a :=
      groupStep_mono _ _ (collectF_mono env m') p a
    have := envWeight_antitone env a _ hsub
    omega

theorem propsPhase_agree (env : SchemaEnv) (n' m' b : Nat)
    (henv : ∀ kv ∈ env, kv.1 ≠ "")
    (IH : ∀ (o' : Option Schema) (set' : List String), collectBound env o' set' ≤ b →
      collectF env n' o' set' = collectF env m' o' set')
    (s : Schema) (set : List String)
    (hb : envWeight set env + schemaSize s ≤ b + 1) :
    propsPhase (collectF env n') env s set = propsPhase (collectF env m') env s set := by
  rw [propsPhase, propsPhase]
  have hsub : set ⊆ (if s.ref = "" then set
      else addParentSchemaRef s.ref (insertRef s.ref set)) := by
    split
    · exact fun _ hx => hx
    · exact (insertRef_subset _ _).trans (addParent_subset _ _)
  have hw := envWeight_antitone env set _ hsub
  exact propsFold_agree env n' m' b henv IH (schemaSize s) s.properties
    (fun kv hkv => props_lt_schemaSize s kv hkv) _ (by omega)

theorem groupsPhase_agree (env : SchemaEnv) (n' m' b : Nat)
    (henv : ∀ kv ∈ env, kv.1 ≠ "")
    (IH : ∀ (o' : Option Schema) (set' : List String), collectBound env o' set' ≤ b →
      collectF env n' o' set' = collectF env m' o' set')
    (s : Schema) (a : List String)
    (hb : envWeight a env + schemaSize s ≤ b + 1) :
    groupsPhase (collectF env n') env s a = groupsPhase (collectF env m') env s a := by
  rw [groupsPhase, groupsPhase]
  exact groupsFold_agree env n' m' b henv IH (schemaSize s) _
    (fun p hp => groups_lt_schemaSize s p hp) a hb

theorem apPhase_agree (env : SchemaEnv) (n' m' b : Nat)
    (henv : ∀ kv ∈ env, kv.1 ≠ "")
    (IH : ∀ (o' : Option Schema) (set' : List String), collectBound env o' set' ≤ b →
      collectF env n' o' set' = collectF env m' o' set')
    (s : Schema) (a : List String)
    (hb : envWeight a env + schemaSize s ≤ b + 1) :
    apPhase (collectF env n') env s a = apPhase (collectF env m') env s a := by
  rw [apPhase, apPhase]
  cases hap : s.addProps with
  | none => exact groupsPhase_agree env n' m' b henv IH s a hb
  | some p =>
    have hp := addProps_lt_schemaSize s p hap
    have hstep : itemStep (collectF env n') env p a =
        itemStep (collectF env m') env p a :=
      itemStep_agree env n' m' b henv IH p a (by omega)
    show (match itemStep (collectF env n') env p a with
      | none => a
      | some set2 => groupsPhase (collectF env n') env s set2) =
      (match itemStep (collectF env m') env p a with
      | none => a
      | some set2 => groupsPhase (collectF env m') env s set2)
    rw [hstep]
    cases h2 : itemStep (collectF env m') env p a with
    | none => rfl
    | some a2 =>
      have hsub : a ⊆ a2 := itemStep_mono _ _ (collectF_mono env m') p a a2 h2
      have := envWeight_antitone env a a2 hsub
      exact groupsPhase_agree env n' m' b henv IH s a2 (by omega)

theorem collectBody_agree (env : SchemaEnv) (n' m' b : Nat)
    (henv : ∀ kv ∈ env, kv.1 ≠ "")
    (IH : ∀ (o' : Option Schema) (set' : List String), collectBound env o' set' ≤ b →
      collectF env n' o' set' = collectF env m' o' set')
    (s : Schema) (set : List String)
    (hb : envWeight set env + schemaSize s ≤ b + 1) :
    collectBody (collectF env n') env s set = collectBody (collectF env m') env s set := by
  have h1 := propsPhase_agree env n' m' b henv IH s set hb
  show (match s.items with
    | none => apPhase (collectF env n') env s (propsPhase (collectF env n') env s set)
    | some p =>
      match itemStep (collectF env n') env p (propsPhase (collectF env n') env s set) with
      | none => propsPhase (collectF env n') env s set
      | some set2 => apPhase (collectF env n') env s set2) =
    (match s.items with
    | none => apPhase (collectF env m') env s (propsPhase (collectF env m') env s set)
    | some p =>
      match itemStep (collectF env m') env p (propsPhase (collectF env m') env s set) with
      | none => propsPhase (collectF env m') env s set
      | some set2 => apPhase (collectF env m') env s set2)
  rw [h1]
  have hsub1 : set ⊆ propsPhase (collectF env m') env s set :=
    propsPhase_mono _ _ (collectF_mono env m') s set
  have hw1 := envWeight_antitone env set _ hsub1
  cases hit : s.items with
  | none => exact apPhase_agree env n' m' b henv IH s _ (by omega)
  | some p =>
    have hp := items_lt_schemaSize s p hit
    have hstep : itemStep (collectF env n') env p (propsPhase (collectF env m') env s set) =
        itemStep (collectF env m') env p (propsPhase (collectF env m') env s set) :=
      itemStep_agree env n' m' b henv IH p _ (by omega)
    show (match itemStep (collectF env n') env p (propsPhase (collectF env m') env s set) with
      | none => propsPhase (collectF env m') env s set
      | some set2 => apPhase (collectF env n') env s set2) =
      (match itemStep (collectF env m') env p (propsPhase (collectF env m') env s set) with
      | none => propsPhase (collectF env m') env s set
      | some set2 => apPhase (collectF env m') env s set2)
    rw [hstep]
    cases h2 : itemStep (collectF env m') env p (propsPhase (collectF env m') env s set) with
    | none => rfl
    | some set2 =>
      have hsub2 : propsPhase (collectF env m') env s set ⊆ set2 :=
        itemStep_mono _ _ (collectF_mono env m') p _ set2 h2
      have hw2 := envWeight_antitone env _ set2 hsub2
      exact apPhase_agree env n' m' b henv IH s set2 (by omega)

theorem collectF_stable (env : SchemaEnv) (henv : ∀ kv ∈ env, kv.1 ≠ "") :
    ∀ (b n m : Nat) (o : Option Schema) (set : List String),
      collectBound env o set ≤ b → b ≤ n → b ≤ m →
      collectF env n o set = collectF env m o set := by
  intro b
  induction b with
  | zero =>
    intro n m o set hb _ _
    exact absurd hb (by rw [collectBound]; omega)
  | succ b ih =>
    intro n m o set hb hn hm
    cases o with
    | none => rw [collectF_none, collectF_none]
    | some s =>
      obtain ⟨n', rfl⟩ : ∃ n', n = n' + 1 := ⟨n - 1, by omega⟩
      obtain ⟨m', rfl⟩ : ∃ m', m = m' + 1 := ⟨m - 1, by omega⟩
      rw [collectF, collectF]
      by_cases htop : s.ref ≠ "" ∧ s.ref ∈ set
      · rw [if_pos htop, if_pos htop]
      · rw [if_neg htop, if_neg htop]
        have IH : ∀ (o' : Option Schema) (set' : List String),
            collectBound env o' set' ≤ b →
            collectF env n' o' set' = collectF env m' o' set' :=
          fun o' set' h' => ih n' m' o' set' h' (by omega) (by omega)
        refine collectBody_agree env n' m' b henv IH s set ?_
        rw [collectBound, oWeight] at hb
        omega

/-- C9: the reference collector's schema traversal terminates on every
schema graph, cyclic ones included, by virtue of the visited set: past the
computable bound `collectBound` (which shrinks whenever a new reference is
recorded or an inline schema is descended), adding any amount of fuel never
changes the result, so `collectSchemaRefs` — the function run at the bound
— is the limit of the traversal and no recursion-depth limit plays a role.
The only well-formedness assumed of the graph is that no component is keyed
by the empty reference string, which the code reserves as the
"not a reference" sentinel. -/
theorem c9_collect_schema_refs_terminates (env : SchemaEnv) (o : Option Schema)
    (set : List String) (n : Nat)
    (henv : ∀ kv ∈ env, kv.1 ≠ "")
    (hn : collectBound env o set ≤ n) :
    collectF env n o set = collectSchemaRefs env o set :=
  collectF_stable env henv (collectBound env o set) n (collectBound env o set)
    o set (Nat.le_refl _) hn (Nat.le_refl _)

def c9SchemaA : Schema :=
  .mk "" [] [] [("b", .ref "#/components/schemas/B")] none none [] [] [] none

def c9SchemaB : Schema :=
  .mk "" [] [] [("a", .ref "#/components/schemas/A")] none none [] [] [] none

def c9Env : SchemaEnv :=
  [("#/components/schemas/A", c9SchemaA), ("#/components/schemas/B", c9SchemaB)]

/-- C9 witness: on a two-schema reference cycle, running the collector with
any surplus fuel gives the same set as running it at the bound. -/
theorem c9_collect_schema_refs_terminates_witness :
    collectF c9Env (collectBound c9Env (some c9SchemaA) [] + 7)
      (some c9SchemaA) [] = collectSchemaRefs c9Env (some c9SchemaA) [] :=
  c9_collect_schema_refs_terminates c9Env (some c9SchemaA) []
    (collectBound c9Env (some c9SchemaA) [] + 7)
    (by decide) (by omega)

end Oapi
